import Mathlib

/-!
Verification of the mdxfl NFO-to-VSMETA conversion scripts.

The repository converts XML sidecar metadata (NFO) into the binary VSMETA
sidecar format.  This file gives a shallow embedding of the relevant code:

* `write_int` from src/nfo-to-vsmeta1.1.py (the varint writer);
* `SynoMetaConverter._parse_nfo`, `_generate_vsmeta`, `_check_cache`,
  `_update_cache` and `convert_nfo` from src/nfo-to-vsmetaCS.py;
* `DSM7Converter.parse_nfo` and `generate_vsmeta` from
  src/nfo-to-vsmetaCS1.1.py;
* a decoder for the TLV wire format, modelled from the spec (no source file
  reads VSMETA bytes back).

Python floats are idealised as exact rationals (`Rat`), built with `mkRat`
so that every embedded function evaluates by kernel reduction; the int/float
type distinction of Python values, which `struct.pack` inspects, is kept in
`PyNum`.  Machine integers are `Nat`/`Int` with explicit range checks where
the source's `struct.pack` enforces them.
-/

/-- Python exceptions that the embedded code can raise. -/
inductive PyErr where
  | typeError
  | valueError
  | structNotInt
  | structRange
  | attributeError
  | osError
  | xmlParseError
  deriving DecidableEq

/-- Decidable equality of `Except` results, so that concrete runs of the
embedded code can be checked by `decide`. -/
instance {ε α : Type} [DecidableEq ε] [DecidableEq α] : DecidableEq (Except ε α) := fun a b =>
  match a, b with
  | .error e, .error f =>
    if h : e = f then isTrue (congrArg Except.error h)
    else isFalse (fun c => h (Except.error.inj c))
  | .ok x, .ok y =>
    if h : x = y then isTrue (congrArg Except.ok h)
    else isFalse (fun c => h (Except.ok.inj c))
  | .error _, .ok _ => isFalse (fun c => Except.noConfusion c)
  | .ok _, .error _ => isFalse (fun c => Except.noConfusion c)

/-- Product of two rationals, computed with `mkRat` (equal to `a * b`, see
`ratMul_eq`; spelled this way so that it evaluates by kernel reduction). -/
def ratMul (a b : Rat) : Rat := mkRat (a.num * b.num) (a.den * b.den)

/-- A Python number as `struct.pack` sees it: an int or a float.  The float
payload is idealised as an exact rational. -/
inductive PyNum where
  | intv (k : Int)
  | floatv (q : Rat)
  deriving DecidableEq

/-- The numeric value of a `PyNum`. -/
def PyNum.toRat : PyNum → Rat
  | .intv k => (k : Rat)
  | .floatv q => q

/-- Whether the value is a Python float whose value is not an integer. -/
def PyNum.isNonIntegralFloat : PyNum → Bool
  | .intv _ => false
  | .floatv q => !(q.den == 1)

/-- CPython two-argument `min`: returns the second argument only when it is
strictly smaller, so ties keep the first argument (and its type). -/
def pyMin (a b : PyNum) : PyNum := if b.toRat < a.toRat then b else a

/-- Embedding of Python `str.strip` on the character list (ASCII whitespace;
the scripts only ever strip spaces, tabs and newlines). -/
def stripChars (l : List Char) : List Char :=
  ((l.dropWhile Char.isWhitespace).reverse.dropWhile Char.isWhitespace).reverse

/-- Embedding of Python `str.strip`. -/
def pyStrip (s : String) : String := String.mk (stripChars s.data)

/-- All characters of the list are decimal digits. -/
def allDigits (l : List Char) : Bool := l.all Char.isDigit

/-- Numeric value of a list of decimal digit characters. -/
def digitsVal (l : List Char) : Nat := l.foldl (fun a c => 10 * a + (c.toNat - 48)) 0

/-- Decimal-digit parse of a nonempty digit string. -/
def pyNatOfChars (l : List Char) : Option Nat :=
  if l ≠ [] ∧ allDigits l then some (digitsVal l) else none

/-- Embedding of Python `int(string)` on an already-stripped character list:
optional sign followed by decimal digits (underscores and non-decimal bases
are not modelled; the scripts never feed them). -/
def pyIntOfChars : List Char → Option Int
  | [] => none
  | c :: rest =>
    if c = '+' then (pyNatOfChars rest).map Int.ofNat
    else if c = '-' then (pyNatOfChars rest).map (fun n => -(Int.ofNat n))
    else (pyNatOfChars (c :: rest)).map Int.ofNat

/-- Embedding of Python `int(string)`: `int` strips surrounding whitespace. -/
def pyInt (s : String) : Option Int := pyIntOfChars (stripChars s.data)

/-- Split an optional leading sign: (negative, remaining characters). -/
def splitSign : List Char → Bool × List Char
  | '+' :: r => (false, r)
  | '-' :: r => (true, r)
  | l => (false, l)

/-- Split a decimal mantissa `digits [. digits]` off the front:
(integer digits, fraction digits, rest). -/
def mantissaSplit (l : List Char) : List Char × List Char × List Char :=
  let ip := l.takeWhile Char.isDigit
  let r1 := l.dropWhile Char.isDigit
  match r1 with
  | '.' :: r2 => (ip, r2.takeWhile Char.isDigit, r2.dropWhile Char.isDigit)
  | _ => (ip, [], r1)

/-- Parse the optional exponent part `([eE] sign digits)` that must use up the
whole rest of the literal. -/
def expSplit : List Char → Option Int
  | [] => some 0
  | c :: r =>
    if c = 'e' ∨ c = 'E' then
      match splitSign r with
      | (neg, d) =>
        if d ≠ [] ∧ allDigits d then
          some (if neg then -(Int.ofNat (digitsVal d)) else Int.ofNat (digitsVal d))
        else none
    else none

/-- The exact rational value of the decimal literal with integer digits `ip`,
fraction digits `fp` and decimal exponent `e`. -/
def decimalVal (ip fp : List Char) (e : Int) : Rat :=
  let mant : Int := Int.ofNat (digitsVal ip * 10 ^ fp.length + digitsVal fp)
  if 0 ≤ e then mkRat (mant * 10 ^ e.toNat) (10 ^ fp.length)
  else mkRat mant (10 ^ fp.length * 10 ^ (-e).toNat)

/-- Embedding of Python `float(string)` for finite decimal literals: optional
sign, decimal mantissa with optional fraction, optional exponent; surrounding
whitespace stripped.  The result is the exact rational value of the literal
(`inf`/`nan` literals are not modelled; the scripts never feed them). -/
def pyFloat (s : String) : Option Rat :=
  match splitSign (stripChars s.data) with
  | (neg, l) =>
    match mantissaSplit l with
    | (ip, fp, rest) =>
      if ip = [] ∧ fp = [] then none
      else
        match expSplit rest with
        | none => none
        | some e => some (if neg then -(decimalVal ip fp e) else decimalVal ip fp e)

/-- Embedding of `write_int` from src/nfo-to-vsmeta1.1.py:

    def write_int(ba, length):
        while length > 128:
            write_byte(ba, length % 128 + 128)
            length = length // 128
        write_byte(ba, length)

The loop guard is `length > 128` exactly as in the source.  The fuel argument
of the auxiliary bounds the loop (each iteration divides by 128, so `n`
iterations always suffice); it never runs out. -/
def write_int_aux : Nat → Nat → List Nat
  | 0, n => [n]
  | fuel + 1, n => if 128 < n then (n % 128 + 128) :: write_int_aux fuel (n / 128) else [n]

/-- The byte list `write_int` appends for a non-negative integer. -/
def write_int (n : Nat) : List Nat := write_int_aux n n

/-- The value reconstruction stated by the spec for the little-endian base-128
scheme: the sum of `(byte AND 0x7F) * 128 ^ i` over the bytes. -/
def varintValue : List Nat → Nat
  | [] => 0
  | b :: rest => b % 128 + 128 * varintValue rest

/-- The continuation-bit shape the spec states: every byte except the last has
its high bit set, the last byte has it clear. -/
def varintWellFormed : List Nat → Bool
  | [] => false
  | [b] => b < 128
  | b :: rest => 128 ≤ b && varintWellFormed rest

/-- The property claimed of `write_int` at `n`: the encoding follows the
continuation scheme and the stated reconstruction gives `n` back. -/
def claimVarintOk (n : Nat) : Bool :=
  varintWellFormed (write_int n) && (varintValue (write_int n) == n)

/-- Little-endian 4-byte encoding of an integer below 2 to the 32, as
`struct.pack` with format I produces. -/
def u32le (n : Nat) : List Nat :=
  [n % 256, n / 256 % 256, n / 65536 % 256, n / 16777216 % 256]

/-- Read 4 little-endian bytes off the front of a byte list. -/
def readU32 : List Nat → Option (Nat × List Nat)
  | b0 :: b1 :: b2 :: b3 :: rest =>
    if b0 < 256 ∧ b1 < 256 ∧ b2 < 256 ∧ b3 < 256 then
      some (b0 + 256 * b1 + 65536 * b2 + 16777216 * b3, rest)
    else none
  | _ => none

/-- The value of a payload that consists of exactly 4 little-endian bytes. -/
def u32val (p : List Nat) : Option Nat :=
  match readU32 p with
  | some (n, []) => some n
  | _ => none

/-- UTF-16-LE bytes of one code point, surrogate pairs for the astral planes,
as Python `str.encode` with utf-16le produces. -/
def utf16leChar (n : Nat) : List Nat :=
  if n < 65536 then [n % 256, n / 256]
  else
    [(55296 + (n - 65536) / 1024) % 256, (55296 + (n - 65536) / 1024) / 256,
     (56320 + (n - 65536) % 1024) % 256, (56320 + (n - 65536) % 1024) / 256]

/-- The code points of a string. -/
def strCodes (s : String) : List Nat := s.data.map Char.toNat

/-- Embedding of Python `string.encode` with utf-16le. -/
def utf16le (s : String) : List Nat := (strCodes s).flatMap utf16leChar

/-- UTF-16-LE decoding back to code points: the inverse used to state that the
encoded text fields lose nothing. -/
def dec16 : List Nat → Option (List Nat)
  | [] => some []
  | [_] => none
  | b0 :: b1 :: rest =>
    if b0 < 256 ∧ b1 < 256 then
      let u := b0 + 256 * b1
      if u < 55296 ∨ 57343 < u then (dec16 rest).map (fun l => u :: l)
      else if u < 56320 then
        match rest with
        | b2 :: b3 :: rest2 =>
          if b2 < 256 ∧ b3 < 256 then
            let v := b2 + 256 * b3
            if 56320 ≤ v ∧ v < 57344 then
              (dec16 rest2).map (fun l => (65536 + (u - 55296) * 1024 + (v - 56320)) :: l)
            else none
          else none
        | _ => none
      else none
    else none

/-- One NFO document as the scripts see it through ElementTree: the text of
each single-valued element (`none` when the element is absent or has no text)
and the text lists of the repeated elements.  `actors` holds the text of the
`name` child of each `actor` element, in document order. -/
structure NfoDoc where
  title : Option String
  originaltitle : Option String
  plot : Option String
  year : Option String
  rating : Option String
  mpaa : Option String
  director : Option String
  genre : Option String
  runtime : Option String
  actors : List (Option String)
  studio : List (Option String)
  deriving DecidableEq

/-- A document with every element absent, used to build concrete fixtures. -/
def emptyDoc : NfoDoc :=
  { title := none, originaltitle := none, plot := none, year := none, rating := none,
    mpaa := none, director := none, genre := none, runtime := none, actors := [], studio := [] }

/-- The `elem is not None and elem.text` guard of `_parse_nfo` followed by
`.strip()`: an absent element or empty text leaves the field `None`. -/
def textOf (o : Option String) : Option String :=
  match o with
  | none => none
  | some t => if t = "" then none else some (pyStrip t)

/-- The result of `SynoMetaConverter._parse_nfo`: the meta dictionary with its
numeric entries already replaced. -/
structure ParsedMeta where
  title : Option String
  originaltitle : Option String
  plot : Option String
  director : Option String
  genre : Option String
  mpaa : Option String
  rating : PyNum
  year : Int
  runtime : Int
  actors : List String
  studio : List String
  deriving DecidableEq

/-- The rating normalisation on line 89 of src/nfo-to-vsmetaCS.py:
`min(float(...) * 2, 10)`, with CPython `min` keeping the first argument on
ties (so the result is the Python int 10 only when the doubled value exceeds
10). -/
def ratingNormalize (r : Rat) : PyNum := pyMin (.floatv (ratMul r 2)) (.intv 10)

namespace SynoMetaConverter

/-- Embedding of `SynoMetaConverter._parse_nfo` from src/nfo-to-vsmetaCS.py.
The meta dictionary is pre-filled with `None`, so `meta.get('rating', 0)`,
`meta.get('year', 0)` and `meta.get('runtime', 0)` return `None` (not the
written default 0) when the element is absent, and `float(None)`/`int(None)`
raise `TypeError`; unparseable text raises `ValueError`. -/
def parse_nfo (d : NfoDoc) : Except PyErr ParsedMeta :=
  match textOf d.rating with
  | none => .error .typeError
  | some rs =>
    match pyFloat rs with
    | none => .error .valueError
    | some r =>
      match textOf d.year with
      | none => .error .typeError
      | some ys =>
        match pyInt ys with
        | none => .error .valueError
        | some y =>
          match textOf d.runtime with
          | none => .error .typeError
          | some ts =>
            match pyInt ts with
            | none => .error .valueError
            | some rt =>
              .ok { title := textOf d.title
                    originaltitle := textOf d.originaltitle
                    plot := textOf d.plot
                    director := textOf d.director
                    genre := textOf d.genre
                    mpaa := textOf d.mpaa
                    rating := ratingNormalize r
                    year := y
                    runtime := rt
                    actors := d.actors.filterMap (fun a =>
                      match a with
                      | some nm => if nm = "" then none else some (pyStrip nm)
                      | none => none)
                    studio := d.studio.filterMap (fun t =>
                      match t with
                      | some nm => if nm = "" then none else some (pyStrip nm)
                      | none => none) }

/-- One `struct.pack('<II', tag, len(encoded))` plus the UTF-16-LE payload, as
the (tag, payload) entry it appends; format I raises for values at or above
2 to the 32. -/
def packTextChunk (tag : Nat) (s : String) : Except PyErr (Nat × List Nat) :=
  if (utf16le s).length < 4294967296 then .ok (tag, utf16le s) else .error .structRange

/-- One `struct.pack('<III', tag, 4, value)` entry: format I accepts only
Python ints in range; a float raises `struct.error`. -/
def packNumChunk (tag : Nat) (v : PyNum) : Except PyErr (Nat × List Nat) :=
  match v with
  | .intv k =>
    if 0 ≤ k ∧ k < 4294967296 then .ok (tag, u32le k.toNat) else .error .structRange
  | .floatv _ => .error .structNotInt

/-- The text-field branch of the writer loop: absent fields are skipped, a
present field (even an empty string) is packed. -/
def optTextChunk (tag : Nat) (o : Option String) : Except PyErr (List (Nat × List Nat)) :=
  match o with
  | none => .ok []
  | some s => (packTextChunk tag s).map (fun c => [c])

/-- The (tag, payload) entries `_generate_vsmeta` packs, in the source's
iteration order over FIELD_TAGS (title 0x01, originaltitle 0x02, plot 0x03,
year 0x04, rating 0x05, director 0x07, genre 0x08, mpaa 0x09, runtime 0x0D),
then one 0x06 entry per actor and one 0x0C entry per studio. -/
def generate_chunks (m : ParsedMeta) : Except PyErr (List (Nat × List Nat)) := do
  let t ← optTextChunk 1 m.title
  let ot ← optTextChunk 2 m.originaltitle
  let pl ← optTextChunk 3 m.plot
  let y ← packNumChunk 4 (.intv m.year)
  let r ← packNumChunk 5 m.rating
  let di ← optTextChunk 7 m.director
  let g ← optTextChunk 8 m.genre
  let mp ← optTextChunk 9 m.mpaa
  let rt ← packNumChunk 13 (.intv m.runtime)
  let ac ← m.actors.mapM (packTextChunk 6)
  let st ← m.studio.mapM (packTextChunk 12)
  pure (t ++ ot ++ pl ++ [y] ++ [r] ++ di ++ g ++ mp ++ [rt] ++ ac ++ st)

/-- The fixed 7-byte VSMETA_HEADER of src/nfo-to-vsmetaCS.py. -/
def vsmetaHeader : List Nat := [86, 83, 77, 1, 0, 0, 0]

/-- The wire bytes of one Field entry: 4-byte little-endian tag, 4-byte
little-endian payload length, payload. -/
def encodeField (f : Nat × List Nat) : List Nat := u32le f.1 ++ u32le f.2.length ++ f.2

/-- Embedding of `SynoMetaConverter._generate_vsmeta`: the header, the packed
field entries, and the unconditional `struct.pack('<I', 0xFF)` end marker. -/
def generate_vsmeta (m : ParsedMeta) : Except PyErr (List Nat) :=
  (generate_chunks m).map
    (fun fs => vsmetaHeader ++ (fs.map encodeField).flatten ++ u32le 255)

end SynoMetaConverter

/-- The result of `DSM7Converter.parse_nfo` from src/nfo-to-vsmetaCS1.1.py
(the unused poster/backdrop lookups touch only the filesystem and are not
modelled). -/
structure Dsm7Meta where
  title : String
  original_title : String
  description : String
  year : Int
  rating : PyNum
  deriving DecidableEq

/-- ElementTree `findtext`: the element's text when present (empty string for
an empty element), else the default. -/
def findtext (o : Option String) (dflt : String) : String := o.getD dflt

/-- Multiply a rational by an integer power of two, spelled with `mkRat` so
that it evaluates by kernel reduction. -/
def ratScale (q : Rat) (e : Int) : Rat :=
  if 0 ≤ e then mkRat (q.num * 2 ^ e.toNat) q.den else mkRat q.num (q.den * 2 ^ (-e).toNat)

/-- Round a rational to the nearest integer, ties to even. -/
def roundHalfEven (q : Rat) : Int :=
  let n := q.num
  let d : Int := (q.den : Int)
  let f := n.fdiv d
  let r2 := 2 * (n - f * d)
  if r2 < d then f else if d < r2 then f + 1 else if f % 2 = 0 then f else f + 1

/-- Floor of the base-2 logarithm of a positive rational; the fuel bounds the
halving/doubling loop and covers every value the scripts can produce. -/
def log2floorAux : Nat → Rat → Int → Int
  | 0, _, acc => acc
  | fuel + 1, m, acc =>
    if 2 ≤ m then log2floorAux fuel (ratScale m (-1)) (acc + 1)
    else if m < 1 then log2floorAux fuel (ratScale m 1) (acc - 1)
    else acc

/-- Floor of the base-2 logarithm of a positive rational. -/
def log2floor (m : Rat) : Int := log2floorAux 2048 m 0

/-- IEEE-754 binary32 bit pattern of a rational (round half to even, with
subnormals and overflow to infinity), as Python `struct.pack` with format f
produces for values representable in binary64. -/
def fl32bits (q : Rat) : Nat :=
  if q = 0 then 0
  else
    let s : Nat := if q < 0 then 2147483648 else 0
    let m : Rat := if q < 0 then -q else q
    let e := max (log2floor m) (-126)
    let n := (roundHalfEven (ratScale m (23 - e))).toNat
    if n < 8388608 then s + n
    else if n = 16777216 then
      if 254 < e + 1 + 127 then s + 2139095040
      else s + (e + 1 + 127).toNat * 8388608
    else
      if 254 < e + 127 then s + 2139095040
      else s + (e + 127).toNat * 8388608 + (n - 8388608)

/-- The 4 little-endian bytes of `struct.pack` with format f. -/
def fl32le (q : Rat) : List Nat := u32le (fl32bits q)

namespace DSM7Converter

/-- Embedding of `DSM7Converter.parse_nfo` from src/nfo-to-vsmetaCS1.1.py:
every text field defaults through `findtext`, `int`/`float` raise only on
unparseable text, and the rating is `min(10, float(...) * 2)` (CPython `min`
returns the first argument, the int 10, unless the doubled value is strictly
below 10). -/
def parse_nfo (d : NfoDoc) : Except PyErr Dsm7Meta :=
  match pyInt (findtext d.year ("0")) with
  | none => .error .valueError
  | some y =>
    match pyFloat (findtext d.rating ("0")) with
    | none => .error .valueError
    | some r =>
      .ok { title := pyStrip (findtext d.title (""))
            original_title := pyStrip (findtext d.originaltitle (""))
            description := pyStrip (findtext d.plot (""))
            year := y
            rating := pyMin (.intv 10) (.floatv (ratMul r 2)) }

/-- Embedding of `DSM7Converter.generate_vsmeta` from src/nfo-to-vsmetaCS1.1.py.
The text-field loop reads `self.FIELD_MAP[field]`, but `FIELD_MAP` is a
module-level global and not an attribute of the class, so the first truthy
text field raises `AttributeError`; only a record with no text at all reaches
the two numeric packs (year as `<III`, rating as `<IIf`), and no end marker is
appended. -/
def generate_vsmeta (m : Dsm7Meta) : Except PyErr (List Nat) :=
  if m.title ≠ "" ∨ m.original_title ≠ "" ∨ m.description ≠ "" then .error .attributeError
  else if 0 ≤ m.year ∧ m.year < 4294967296 then
    .ok (SynoMetaConverter.vsmetaHeader ++
         u32le 4 ++ u32le 4 ++ u32le m.year.toNat ++
         u32le 5 ++ u32le 4 ++ fl32le m.rating.toRat)
  else .error .structRange

end DSM7Converter

/-- Decode-path errors, from the spec's error taxonomy. -/
inductive DecErr where
  | badMagic
  | truncatedRecord
  deriving DecidableEq

/-- The byte image of a whole record: header then the Field entries. -/
def encodeRecord (fields : List (Nat × List Nat)) : List Nat :=
  SynoMetaConverter.vsmetaHeader ++ (fields.map SynoMetaConverter.encodeField).flatten

/-- Modelled from the spec: the Field-sequence decoder of VsmetaCodec.decode,
which is absent from the repository sources (no script reads VSMETA bytes
back).  It follows the spec's TLV grammar in the format edition this
repository's encoders write: per Field a 4-byte little-endian tag, a 4-byte
little-endian payload length, then that many payload bytes; unknown tags are
retained as raw (tag, payload) pairs; a declared length past the end of the
input is `TruncatedRecordError`.  Byte lists stand for file bytes, so each
entry is below 256 (the guard only makes the function total); the fuel bounds
the loop by the input length and never runs out. -/
def decodeFieldsAux : Nat → List Nat → Except DecErr (List (Nat × List Nat))
  | _, [] => .ok []
  | 0, _ :: _ => .error .truncatedRecord
  | fuel + 1, b :: l =>
    match readU32 (b :: l) with
    | none => .error .truncatedRecord
    | some (tag, r1) =>
      match readU32 r1 with
      | none => .error .truncatedRecord
      | some (len, r2) =>
        if len ≤ r2.length then
          match decodeFieldsAux fuel (r2.drop len) with
          | .error e => .error e
          | .ok fs => .ok ((tag, r2.take len) :: fs)
        else .error .truncatedRecord

/-- Modelled from the spec: decode a Field sequence off a byte list. -/
def decodeFields (bs : List Nat) : Except DecErr (List (Nat × List Nat)) :=
  decodeFieldsAux bs.length bs

/-- Modelled from the spec: VsmetaCodec.decode of a whole record; the fixed
magic header is checked first. -/
def decode (bs : List Nat) : Except DecErr (List (Nat × List Nat)) :=
  if bs.take 7 = SynoMetaConverter.vsmetaHeader then decodeFields (bs.drop 7)
  else .error .badMagic

/-- The payloads carried by a given tag, in record order. -/
def fieldPayloads (tag : Nat) (fs : List (Nat × List Nat)) : List (List Nat) :=
  (fs.filter (fun f => f.1 == tag)).map (fun f => f.2)

/-- The content of one file in the simulated tree. -/
inductive VFile where
  | vnfo (d : NfoDoc)
  | vbin (b : List Nat)
  | vtext (lines : List String)
  deriving DecidableEq

/-- A simulated file tree: each path maps to (mtime, content) when the file
exists. -/
def SimFS : Type := String → Option (Nat × VFile)

/-- Point update of a simulated tree. -/
def upd (fs : SimFS) (p : String) (v : Option (Nat × VFile)) : SimFS :=
  fun q => if q = p then v else fs q

/-- `os.path.splitext(s)[0]`: the path with its last extension removed (the
extension starts at the last dot after the last slash; the leading-dot corner
of basenames is not modelled, the scripts only feed `*.nfo` paths). -/
def splitextRoot (s : String) : String :=
  let rev := s.data.reverse
  let pre := rev.takeWhile (fun c => c ≠ '.' ∧ c ≠ '/')
  match rev.drop pre.length with
  | '.' :: rest => String.mk rest.reverse
  | _ => s

/-- The output path `convert_nfo` derives: `splitext(nfo_path)[0] + '.vsmeta'`. -/
def vsmetaPathOf (p : String) : String := splitextRoot p ++ (".vsmeta")

/-- The lines of the cache file at `cp` (empty when absent). -/
def cacheLines (fs : SimFS) (cp : String) : List String :=
  match fs cp with
  | some (_, .vtext ls) => ls
  | _ => []

/-- Per-file outcome of the conversion pipeline. -/
inductive Outcome where
  | converted
  | skipped
  | failed (e : PyErr)
  deriving DecidableEq

namespace SynoMetaConverter

/-- Embedding of `SynoMetaConverter._check_cache`: skip when the vsmeta file
exists and the nfo's mtime is at most the vsmeta's mtime.  Reading the nfo's
mtime raises (uncaught, outside the try block) when the nfo is gone. -/
def check_cache (fs : SimFS) (nfo vsm : String) : Except PyErr Bool :=
  match fs vsm with
  | none => .ok false
  | some (vmt, _) =>
    match fs nfo with
    | none => .error .osError
    | some (nmt, _) => .ok (nmt ≤ vmt)

/-- Embedding of `SynoMetaConverter._update_cache`: append one line holding
the nfo path to the cache file (mode a creates it when absent). -/
def update_cache (cp : String) (clock : Nat) (fs : SimFS) (nfo : String) : SimFS :=
  upd fs cp (some (clock, .vtext (cacheLines fs cp ++ [nfo])))

/-- Embedding of `SynoMetaConverter.convert_nfo`: derive the output path,
consult the cache check, then parse, generate, write the output (with the
current clock as its mtime) and append to the cache file; any exception in
the try block becomes a failed outcome, the cache check itself is outside the
try block. -/
def convert_nfo (cp : String) (clock : Nat) (fs : SimFS) (nfo : String) :
    Except PyErr (SimFS × Outcome) :=
  let vsm := vsmetaPathOf nfo
  match check_cache fs nfo vsm with
  | .error e => .error e
  | .ok true => .ok (fs, .skipped)
  | .ok false =>
    match fs nfo with
    | none => .ok (fs, .failed .osError)
    | some (_, .vbin _) => .ok (fs, .failed .xmlParseError)
    | some (_, .vtext _) => .ok (fs, .failed .xmlParseError)
    | some (_, .vnfo d) =>
      match parse_nfo d with
      | .error e => .ok (fs, .failed e)
      | .ok m =>
        match generate_vsmeta m with
        | .error e => .ok (fs, .failed e)
        | .ok bs =>
          let fs1 := upd fs vsm (some (clock, .vbin bs))
          .ok (update_cache cp clock fs1 nfo, .converted)

/-- The scan loop of `scan_and_convert` over an already-enumerated list of
nfo paths; the clock advances by one per file, so later writes carry later
mtimes. -/
def runAll (cp : String) (clock : Nat) (fs : SimFS) :
    List String → Except PyErr (SimFS × List Outcome)
  | [] => .ok (fs, [])
  | f :: rest =>
    match convert_nfo cp clock fs f with
    | .error e => .error e
    | .ok (fs1, o) =>
      match runAll cp (clock + 1) fs1 rest with
      | .error e => .error e
      | .ok (fs2, os) => .ok (fs2, o :: os)

end SynoMetaConverter

/-- One filesystem operation of the single-file write path. -/
inductive FsOp where
  | openW (p : String)
  | writeChunk (data : List Nat)
  | closeF
  | renameF (src dst : String)
  deriving DecidableEq

/-- The write-path state: file contents and the currently open file. -/
structure WState where
  files : String → Option (List Nat)
  openPath : Option String

/-- Point update of the write-path file map. -/
def updB (f : String → Option (List Nat)) (p : String) (v : Option (List Nat)) :
    String → Option (List Nat) :=
  fun q => if q = p then v else f q

/-- Effect of one operation: `openW` truncates (mode wb) and opens, a write
appends to the open file, rename moves a file. -/
def stepOp (s : WState) : FsOp → WState
  | .openW p => { files := updB s.files p (some []), openPath := some p }
  | .writeChunk d =>
    match s.openPath with
    | some p => { s with files := updB s.files p (some (((s.files p).getD []) ++ d)) }
    | none => s
  | .closeF => { s with openPath := none }
  | .renameF a b => { files := updB (updB s.files a none) b (s.files a), openPath := s.openPath }

/-- Run a list of operations. -/
def runOps (s : WState) (ops : List FsOp) : WState := ops.foldl stepOp s

/-- The filesystem operations of the write in `convert_nfo`:
`with open(vsmeta_path, 'wb') as f: f.write(vsmeta_data)` — open the final
path directly, write, close. -/
def convert_write_ops (vsm : String) (data : List Nat) : List FsOp :=
  [.openW vsm, .writeChunk data, .closeF]

/-- Whether an operation is a rename. -/
def isRenameOp : FsOp → Bool
  | .renameF _ _ => true
  | _ => false

/-- The claim's write discipline, as a checkable predicate: some operation
renames a distinct temporary path onto the final path. -/
def usesTempRenameB (ops : List FsOp) (final : String) : Bool :=
  ops.any (fun op =>
    match op with
    | .renameF src dst => src != final && dst == final
    | _ => false)

/-- Whether a present text field fits the 4-byte length prefix. -/
def textLenOk (o : Option String) : Bool :=
  match o with
  | none => true
  | some s => (utf16le s).length < 4294967296

/-- The packs of `_generate_vsmeta` that run before the rating pack all
succeed: title, originaltitle and plot fit their length prefixes and the year
is in range for format I. -/
def preRatingOk (m : ParsedMeta) : Bool :=
  textLenOk m.title && textLenOk m.originaltitle && textLenOk m.plot &&
  decide (0 ≤ m.year) && decide (m.year < 4294967296)

/-- The packs after the rating also succeed. -/
def postRatingOk (m : ParsedMeta) : Bool :=
  textLenOk m.director && textLenOk m.genre && textLenOk m.mpaa &&
  decide (0 ≤ m.runtime) && decide (m.runtime < 4294967296) &&
  m.actors.all (fun s => (utf16le s).length < 4294967296) &&
  m.studio.all (fun s => (utf16le s).length < 4294967296)

/-- The claim's reading of the record end, as a checkable predicate: a
successfully encoded record consists of the header and the Field entries with
nothing after the last Field. -/
def appendsNoMarker (m : ParsedMeta) : Bool :=
  match SynoMetaConverter.generate_vsmeta m, SynoMetaConverter.generate_chunks m with
  | .ok bs, .ok fs => bs == encodeRecord fs
  | _, _ => true

/-- Path separation for a pipeline run: distinct sources, distinct outputs,
and neither collides with the cache file or with another file of the run. -/
def sepPaths (cp : String) (nfos : List String) : Prop :=
  nfos.Nodup ∧ (nfos.map vsmetaPathOf).Nodup ∧
  (∀ f ∈ nfos, f ≠ cp ∧ vsmetaPathOf f ≠ cp) ∧
  (∀ f ∈ nfos, ∀ g ∈ nfos, vsmetaPathOf f ≠ g)

/-- Fixture: an NFO with title Foo, year 2020, rating 8 and runtime 90. -/
def exDoc3 : NfoDoc :=
  { emptyDoc with
    title := some ("Foo"), year := some ("2020"), rating := some ("8"),
    runtime := some ("90") }

/-- The meta `_parse_nfo` produces for `exDoc3` (rating 16.0 clamps to the
Python int 10). -/
def exMeta3 : ParsedMeta :=
  { title := some ("Foo"), originaltitle := none, plot := none, director := none,
    genre := none, mpaa := none, rating := .intv 10, year := 2020, runtime := 90,
    actors := [], studio := [] }

/-- The Field entries `_generate_vsmeta` packs for `exMeta3`. -/
def exChunks3 : List (Nat × List Nat) :=
  [(1, [70, 0, 111, 0, 111, 0]), (4, [228, 7, 0, 0]), (5, [10, 0, 0, 0]),
   (13, [90, 0, 0, 0])]

/-- The bytes `_generate_vsmeta` writes for `exMeta3`, end marker included. -/
def exBytes3 : List Nat :=
  [86, 83, 77, 1, 0, 0, 0,
   1, 0, 0, 0, 6, 0, 0, 0, 70, 0, 111, 0, 111, 0,
   4, 0, 0, 0, 4, 0, 0, 0, 228, 7, 0, 0,
   5, 0, 0, 0, 4, 0, 0, 0, 10, 0, 0, 0,
   13, 0, 0, 0, 4, 0, 0, 0, 90, 0, 0, 0,
   255, 0, 0, 0]

/-- Fixture: an NFO with rating 8, year 0 and runtime 0 and no text fields. -/
def exDoc8 : NfoDoc :=
  { emptyDoc with rating := some ("8"), year := some ("0"), runtime := some ("0") }

/-- The meta `_parse_nfo` produces for `exDoc8`. -/
def exMeta8 : ParsedMeta :=
  { title := none, originaltitle := none, plot := none, director := none,
    genre := none, mpaa := none, rating := .intv 10, year := 0, runtime := 0,
    actors := [], studio := [] }

/-- The Field entries `_generate_vsmeta` packs for `exMeta8`. -/
def exChunks8 : List (Nat × List Nat) :=
  [(4, [0, 0, 0, 0]), (5, [10, 0, 0, 0]), (13, [0, 0, 0, 0])]

/-- The bytes `_generate_vsmeta` writes for `exMeta8`, end marker included. -/
def exBytes8 : List Nat :=
  [86, 83, 77, 1, 0, 0, 0,
   4, 0, 0, 0, 4, 0, 0, 0, 0, 0, 0, 0,
   5, 0, 0, 0, 4, 0, 0, 0, 10, 0, 0, 0,
   13, 0, 0, 0, 4, 0, 0, 0, 0, 0, 0, 0,
   255, 0, 0, 0]

/-- Fixture: an NFO whose rating 2.5 doubles to the integral-valued float
5.0. -/
def exDoc9 : NfoDoc :=
  { emptyDoc with rating := some ("2.5"), year := some ("2000"), runtime := some ("90") }

/-- The meta `_parse_nfo` produces for `exDoc9`: the rating is the Python
float 5.0. -/
def exMeta9 : ParsedMeta :=
  { title := none, originaltitle := none, plot := none, director := none,
    genre := none, mpaa := none, rating := .floatv 5, year := 2000, runtime := 90,
    actors := [], studio := [] }

/-- Fixture: the spec's concrete scenario, title Foo, year 2020, rating 4.5. -/
def exDoc7 : NfoDoc :=
  { emptyDoc with title := some ("Foo"), year := some ("2020"), rating := some ("4.5") }

/-- The concrete scenario with a runtime element added, so that
`SynoMetaConverter._parse_nfo` gets past its missing-runtime crash. -/
def exDoc7r : NfoDoc := { exDoc7 with runtime := some ("100") }

/-- The meta `_parse_nfo` produces for `exDoc7r`: the rating is the Python
float 9.0. -/
def exMeta7r : ParsedMeta :=
  { title := some ("Foo"), originaltitle := none, plot := none, director := none,
    genre := none, mpaa := none, rating := .floatv 9, year := 2020, runtime := 100,
    actors := [], studio := [] }

/-- Fixture: an NFO carrying only a title. -/
def exDocTitleOnly : NfoDoc := { emptyDoc with title := some ("Foo") }

/-- Fixture: an NFO with the negative rating -1. -/
def exDocNeg : NfoDoc :=
  { emptyDoc with rating := some ("-1"), year := some ("0"), runtime := some ("0") }

/-- Fixture: an NFO whose rating 1 doubles to the float 2.0, so its
conversion always fails at the rating pack. -/
def exDoc5bad : NfoDoc :=
  { emptyDoc with rating := some ("1"), year := some ("0"), runtime := some ("0") }

/-- Fixture tree holding one such NFO. -/
def exFs5bad : SimFS :=
  fun q => if q = ("a.nfo") then some (0, .vnfo exDoc5bad) else none

/-- Fixture tree holding one convertible NFO whose output already exists and
is newer, so a run skips it. -/
def exFsPre : SimFS :=
  fun q =>
    if q = ("a.nfo") then some (0, .vnfo exDoc3)
    else if q = ("a.vsmeta") then some (5, .vbin []) else none

/-- Fixture tree for the cache hyperproperty: one NFO, no cache file. -/
def exFs10a : SimFS :=
  fun q => if q = ("a.nfo") then some (0, .vnfo exDoc3) else none

/-- The same tree with a cache file holding a stale line. -/
def exFs10b : SimFS := upd exFs10a ("c") (some (3, .vtext [("stale line")]))

/-! Helper lemmas. -/

theorem ratMul_eq (a b : Rat) : ratMul a b = a * b := by
  rw [ratMul, Rat.mul_def, Rat.normalize_eq_mkRat]

theorem ratingNormalize_eq (r : Rat) :
    ratingNormalize r = if 10 < r * 2 then .intv 10 else .floatv (r * 2) := by
  have h : ((10 : Int) : Rat) = (10 : Rat) := by norm_num
  simp only [ratingNormalize, pyMin, PyNum.toRat, ratMul_eq, h]

/-- C1: the varint writer `write_int` does not satisfy the claimed
little-endian base-128 continuation scheme at 128 (nor at 16384 or at 2 to
the 35): its loop guard is `length > 128` instead of `length >= 128`, so 128
is emitted as the single byte 0x80, whose high bit is set and which the
spec's reconstruction reads back as 0; the boundary values 0, 127 and 16383
do encode and reconstruct correctly. -/
theorem C1_write_int_128_bug :
    write_int 128 = [128] ∧ varintValue (write_int 128) = 0 ∧
    claimVarintOk 128 = false ∧
    (claimVarintOk 0 && claimVarintOk 127 && claimVarintOk 129 && claimVarintOk 16383) = true ∧
    (claimVarintOk 16384 || claimVarintOk 34359738368) = false := by decide

/-- C2 counterexample: an NFO rating of -1 parses and normalizes to the
value -2, which is below 0, so the normalized rating does not always lie in
[0, 10]. -/
theorem C2_negative_rating_cex :
    (SynoMetaConverter.parse_nfo exDocNeg).map (fun m => m.rating.toRat) = .ok (-2) ∧
    ((-2 : Rat) < 0) := by decide

/-- C2 (amended): for every non-negative input rating `r` the normalized
rating lies in [0, 10]; the input 4.5 normalizes to 9 and the input 8
normalizes to 10 (the code applies `min` with 10 but no lower clamp, so the
bound needs `0 <= r`). -/
theorem C2_rating_normalization : ∀ r : Rat, 0 ≤ r →
    (0 ≤ (ratingNormalize r).toRat ∧ (ratingNormalize r).toRat ≤ 10) ∧
    (ratingNormalize (mkRat 9 2)).toRat = 9 ∧ (ratingNormalize 8).toRat = 10 := by
  intro r hr
  refine ⟨?_, ?_, ?_⟩
  · rw [ratingNormalize_eq]
    split_ifs with h
    · simp [PyNum.toRat]
    · simp only [PyNum.toRat]
      constructor
      · nlinarith
      · linarith
  · rw [ratingNormalize_eq]
    norm_num [Rat.mkRat_eq_div, PyNum.toRat]
  · rw [ratingNormalize_eq]
    norm_num [PyNum.toRat]

/-- C2 witness: the amended statement at the concrete non-negative rating 1. -/
theorem C2_rating_normalization_witness :
    0 ≤ (ratingNormalize 1).toRat ∧ (ratingNormalize 1).toRat ≤ 10 :=
  (C2_rating_normalization 1 (by norm_num)).1

/-- C4 counterexample: the single-file write opens the final output path
directly (truncating it) and uses no temporary path and no rename, so an
interruption right after the open leaves an empty file at the final path —
neither the previous content [9], nor the complete new content [1, 2], nor
absence. -/
theorem C4_partial_write_cex :
    usesTempRenameB (convert_write_ops ("out.vsmeta") [1, 2]) ("out.vsmeta") = false ∧
    (runOps { files := fun q => if q = ("out.vsmeta") then some [9] else none, openPath := none }
      ((convert_write_ops ("out.vsmeta") [1, 2]).take 1)).files ("out.vsmeta") = some [] ∧
    (runOps { files := fun q => if q = ("out.vsmeta") then some [9] else none, openPath := none }
      (convert_write_ops ("out.vsmeta") [1, 2])).files ("out.vsmeta") = some [1, 2] ∧
    (some ([] : List Nat) ≠ some [9]) ∧ (some ([] : List Nat) ≠ some [1, 2]) ∧
    (some ([] : List Nat) ≠ none) := by decide

/-- C4 (amended): `convert_nfo` writes the encoded bytes directly to the
final output path — open in mode wb (truncate), write, close — performing no
rename and touching no other path; there is no temporary file, so the
atomicity the claim states does not hold (see the counterexample), but the
completed write does leave exactly the new content at the final path. -/
theorem C4_direct_write : ∀ (p : String) (d : List Nat) (s : WState),
    (runOps s (convert_write_ops p d)).files = updB s.files p (some d) ∧
    (runOps s (convert_write_ops p d)).openPath = none ∧
    (convert_write_ops p d).filter isRenameOp = [] := by
  intro p d s
  refine ⟨?_, rfl, rfl⟩
  funext q
  simp only [runOps, convert_write_ops, List.foldl, stepOp, updB]
  by_cases hq : q = p <;> simp [hq]

/-- C5 counterexample: a source tree with one NFO whose conversion fails
(rating 1 becomes the float 2.0, which the integer pack rejects) is re-parsed
and re-encoded on the second run and reported failed again, not Skipped, so a
second run over an unchanged tree neither performs zero re-encodes nor
reports every file as Skipped. -/
theorem C5_failed_file_rerun_cex :
    (SynoMetaConverter.runAll ("c") 1 exFs5bad ["a.nfo"]).map (fun p => p.2) =
      .ok [.failed .structNotInt] ∧
    ((SynoMetaConverter.runAll ("c") 1 exFs5bad ["a.nfo"]).bind
      (fun p => SynoMetaConverter.runAll ("c") 2 p.1 ["a.nfo"])).map (fun p => p.2) =
      .ok [.failed .structNotInt] ∧
    (Outcome.failed .structNotInt ≠ Outcome.skipped) := by decide

/-- C6: `SynoMetaConverter._parse_nfo` crashes on an NFO that lacks a rating
(or year, or runtime) element — the meta dictionary is pre-filled with None,
so the written `.get(..., 0)` defaults never apply and `float(None)` raises
TypeError — while the sibling variant `DSM7Converter.parse_nfo` of the same
repository defaults the same document to year 0 and rating 0.0 as the claim
describes. -/
theorem C6_missing_field_crash :
    SynoMetaConverter.parse_nfo exDocTitleOnly = .error .typeError ∧
    DSM7Converter.parse_nfo exDocTitleOnly =
      .ok { title := ("Foo"), original_title := (""), description := (""),
            year := 0, rating := .floatv 0 } := by decide

/-- C7: on the spec's concrete scenario (title Foo, year 2020, rating 4.5)
neither encoder yields the claimed record: `DSM7Converter` parses it, but
`generate_vsmeta` reads `self.FIELD_MAP`, which is not a class attribute, and
raises AttributeError at the non-empty title; `SynoMetaConverter._parse_nfo`
crashes on the absent runtime element, and even with a runtime element
supplied its `_generate_vsmeta` raises struct.error packing the float rating
9.0 with the all-integer format III. -/
theorem C7_concrete_scenario_bug :
    DSM7Converter.parse_nfo exDoc7 =
      .ok { title := ("Foo"), original_title := (""), description := (""),
            year := 2020, rating := .floatv 9 } ∧
    (DSM7Converter.parse_nfo exDoc7).bind DSM7Converter.generate_vsmeta =
      .error .attributeError ∧
    SynoMetaConverter.parse_nfo exDoc7 = .error .typeError ∧
    SynoMetaConverter.parse_nfo exDoc7r = .ok exMeta7r ∧
    (SynoMetaConverter.parse_nfo exDoc7r).bind SynoMetaConverter.generate_vsmeta =
      .error .structNotInt := by decide

/-- C8 counterexample: `_generate_vsmeta` appends the 4-byte little-endian
sentinel 0xFF after the last Field of every record it produces — here a
record with fields year, rating and runtime only — so the encoder does append
an end marker, with no streaming configuration anywhere. -/
theorem C8_end_marker_cex :
    appendsNoMarker exMeta8 = false ∧
    SynoMetaConverter.generate_chunks exMeta8 = .ok exChunks8 ∧
    SynoMetaConverter.generate_vsmeta exMeta8 =
      .ok (encodeRecord exChunks8 ++ [255, 0, 0, 0]) := by decide

/-- C9 counterexample: the NFO rating 2.5 doubles to 5.0 — a Python float
whose value is integral, so `_parse_nfo` does not always produce a
non-integral float when `2 * r <= 10`; the conversion still fails, because
`struct.pack` with the all-integer format III rejects every float. -/
theorem C9_integral_float_cex :
    SynoMetaConverter.parse_nfo exDoc9 = .ok exMeta9 ∧
    exMeta9.rating = .floatv 5 ∧
    PyNum.isNonIntegralFloat exMeta9.rating = false ∧
    (SynoMetaConverter.parse_nfo exDoc9).bind SynoMetaConverter.generate_vsmeta =
      .error .structNotInt := by decide

/-- C3 counterexample: for the parser-producible meta of `exDoc3` (rating 8,
so the rating survives as the int 10 and encoding succeeds), decoding the
encoder's own output fails with TruncatedRecordError: the trailing 4-byte
0xFF end marker is not a complete tag-length-value entry, so
`decode (encode M)` does not reproduce the fields of M. -/
theorem C3_decode_encode_fails_cex :
    SynoMetaConverter.parse_nfo exDoc3 = .ok exMeta3 ∧
    (SynoMetaConverter.parse_nfo exDoc3).bind SynoMetaConverter.generate_vsmeta =
      .ok exBytes3 ∧
    decode exBytes3 = .error .truncatedRecord := by decide

theorem readU32_encode (n : Nat) (rest : List Nat) (h : n < 4294967296) :
    readU32 (u32le n ++ rest) = some (n, rest) := by
  simp only [u32le, List.cons_append, List.nil_append, readU32]
  rw [if_pos ⟨Nat.mod_lt _ (by norm_num), Nat.mod_lt _ (by norm_num),
      Nat.mod_lt _ (by norm_num), Nat.mod_lt _ (by norm_num)⟩]
  simp only [Option.some.injEq, Prod.mk.injEq]
  exact ⟨by omega, trivial⟩

theorem readU32_some {bs : List Nat} {n : Nat} {rest : List Nat}
    (h : readU32 bs = some (n, rest)) : bs = u32le n ++ rest ∧ n < 4294967296 := by
  match bs with
  | [] => simp [readU32] at h
  | [_] => simp [readU32] at h
  | [_, _] => simp [readU32] at h
  | [_, _, _] => simp [readU32] at h
  | b0 :: b1 :: b2 :: b3 :: r =>
    simp only [readU32] at h
    split_ifs at h with hb
    · simp only [Option.some.injEq, Prod.mk.injEq] at h
      obtain ⟨hv, hr⟩ := h
      subst hr
      obtain ⟨h0, h1, h2, h3⟩ := hb
      refine ⟨?_, by omega⟩
      simp only [u32le, List.cons_append, List.nil_append]
      have e0 : n % 256 = b0 := by omega
      have e1 : n / 256 % 256 = b1 := by omega
      have e2 : n / 65536 % 256 = b2 := by omega
      have e3 : n / 16777216 % 256 = b3 := by omega
      rw [e0, e1, e2, e3]

theorem decodeFieldsAux_step (fuel : Nat) (b : Nat) (l : List Nat) :
    decodeFieldsAux (fuel + 1) (b :: l) =
      match readU32 (b :: l) with
      | none => .error .truncatedRecord
      | some (tag, r1) =>
        match readU32 r1 with
        | none => .error .truncatedRecord
        | some (len, r2) =>
          if len ≤ r2.length then
            match decodeFieldsAux fuel (r2.drop len) with
            | .error e => .error e
            | .ok fs => .ok ((tag, r2.take len) :: fs)
          else .error .truncatedRecord := rfl

theorem decodeFieldsAux_sound : ∀ (fuel : Nat) (bs : List Nat) (fs : List (Nat × List Nat)),
    decodeFieldsAux fuel bs = .ok fs →
    (fs.map SynoMetaConverter.encodeField).flatten = bs := by
  intro fuel
  induction fuel with
  | zero =>
    intro bs fs h
    cases bs with
    | nil =>
      simp only [decodeFieldsAux] at h
      injection h with h
      subst h
      rfl
    | cons b l =>
      simp only [decodeFieldsAux] at h
      exact Except.noConfusion h
  | succ fuel ih =>
    intro bs fs h
    cases bs with
    | nil =>
      simp only [decodeFieldsAux] at h
      injection h with h
      subst h
      rfl
    | cons b l =>
      rw [decodeFieldsAux_step] at h
      split at h
      next heq => exact Except.noConfusion h
      next tag r1 heq =>
        split at h
        next heq2 => exact Except.noConfusion h
        next len r2 heq2 =>
          split_ifs at h with hlen
          · split at h
            next e heq3 => exact Except.noConfusion h
            next fs2 heq3 =>
              injection h with h
              subst h
              obtain ⟨hb1, _⟩ := readU32_some heq
              obtain ⟨hb2, _⟩ := readU32_some heq2
              have ihh := ih _ _ heq3
              simp only [List.map_cons, List.flatten_cons, SynoMetaConverter.encodeField]
              have hl : (r2.take len).length = len := by
                rw [List.length_take]
                omega
              rw [hl, ihh, hb1, hb2]
              simp only [List.append_assoc, List.take_append_drop]

theorem decode_sound (bs : List Nat) (fs : List (Nat × List Nat))
    (h : decode bs = .ok fs) : encodeRecord fs = bs := by
  unfold decode at h
  split_ifs at h with hh
  · have hs := decodeFieldsAux_sound _ _ _ h
    unfold encodeRecord
    rw [hs, ← hh, List.take_append_drop]

theorem decodeFieldsAux_complete : ∀ (fs : List (Nat × List Nat)) (fuel : Nat),
    (∀ f ∈ fs, f.1 < 4294967296 ∧ f.2.length < 4294967296) →
    ((fs.map SynoMetaConverter.encodeField).flatten).length ≤ fuel →
    decodeFieldsAux fuel ((fs.map SynoMetaConverter.encodeField).flatten) = .ok fs := by
  intro fs
  induction fs with
  | nil =>
    intro fuel _ _
    cases fuel <;> rfl
  | cons f fs ih =>
    intro fuel hv hl
    obtain ⟨tag, payload⟩ := f
    have hvh := hv (tag, payload) (List.mem_cons_self _ _)
    have hvt : ∀ g ∈ fs, g.1 < 4294967296 ∧ g.2.length < 4294967296 :=
      fun g hg => hv g (List.mem_cons_of_mem _ hg)
    have hshape : ((((tag, payload) :: fs).map SynoMetaConverter.encodeField).flatten) =
        u32le tag ++ (u32le payload.length ++
          (payload ++ ((fs.map SynoMetaConverter.encodeField).flatten))) := by
      simp [SynoMetaConverter.encodeField, List.append_assoc]
    rw [hshape] at hl ⊢
    have hlen8 : (u32le tag ++ (u32le payload.length ++
        (payload ++ ((fs.map SynoMetaConverter.encodeField).flatten)))).length =
        8 + payload.length + ((fs.map SynoMetaConverter.encodeField).flatten).length := by
      simp [u32le, List.length_append]
      omega
    cases fuel with
    | zero =>
      exfalso
      rw [hlen8] at hl
      omega
    | succ fuel =>
      have hcons : u32le tag ++ (u32le payload.length ++
          (payload ++ ((fs.map SynoMetaConverter.encodeField).flatten))) =
          (tag % 256) :: ((tag / 256 % 256) :: (tag / 65536 % 256) :: (tag / 16777216 % 256) ::
            (u32le payload.length ++
              (payload ++ ((fs.map SynoMetaConverter.encodeField).flatten)))) := by
        simp [u32le]
      rw [hcons, decodeFieldsAux_step, ← hcons]
      split
      next heq =>
        rw [readU32_encode _ _ hvh.1] at heq
        exact Option.noConfusion heq
      next tag2 r1 heq =>
        rw [readU32_encode _ _ hvh.1] at heq
        injection heq with heq
        injection heq with htag hr1
        subst htag
        subst hr1
        split
        next heq2 =>
          rw [readU32_encode _ _ hvh.2] at heq2
          exact Option.noConfusion heq2
        next len2 r2 heq2 =>
          rw [readU32_encode _ _ hvh.2] at heq2
          injection heq2 with heq2
          injection heq2 with hlen2 hr2
          subst hlen2
          subst hr2
          have hle : payload.length ≤
              (payload ++ ((fs.map SynoMetaConverter.encodeField).flatten)).length := by
            simp [List.length_append]
          rw [if_pos hle]
          split
          next e heq3 =>
            rw [List.drop_left] at heq3
            have hfl : ((fs.map SynoMetaConverter.encodeField).flatten).length ≤ fuel := by
              rw [hlen8] at hl
              omega
            rw [ih fuel hvt hfl] at heq3
            exact Except.noConfusion heq3
          next fs2 heq3 =>
            rw [List.drop_left] at heq3
            have hfl : ((fs.map SynoMetaConverter.encodeField).flatten).length ≤ fuel := by
              rw [hlen8] at hl
              omega
            rw [ih fuel hvt hfl] at heq3
            injection heq3 with heq3
            subst heq3
            rw [List.take_left]

theorem decode_complete (fs : List (Nat × List Nat))
    (hv : ∀ f ∈ fs, f.1 < 4294967296 ∧ f.2.length < 4294967296) :
    decode (encodeRecord fs) = .ok fs := by
  unfold decode encodeRecord
  have h7 : ((SynoMetaConverter.vsmetaHeader ++
      ((fs.map SynoMetaConverter.encodeField).flatten)).take 7) =
      SynoMetaConverter.vsmetaHeader := by
    simp [SynoMetaConverter.vsmetaHeader]
  have hd7 : ((SynoMetaConverter.vsmetaHeader ++
      ((fs.map SynoMetaConverter.encodeField).flatten)).drop 7) =
      (fs.map SynoMetaConverter.encodeField).flatten := by
    simp [SynoMetaConverter.vsmetaHeader]
  rw [if_pos h7, hd7]
  unfold decodeFields
  exact decodeFieldsAux_complete fs _ hv (Nat.le_refl _)

theorem dec16_cons2 (b0 b1 : Nat) (rest : List Nat) :
    dec16 (b0 :: b1 :: rest) =
      (if b0 < 256 ∧ b1 < 256 then
        if b0 + 256 * b1 < 55296 ∨ 57343 < b0 + 256 * b1 then
          (dec16 rest).map (fun l => (b0 + 256 * b1) :: l)
        else if b0 + 256 * b1 < 56320 then
          match rest with
          | b2 :: b3 :: rest2 =>
            if b2 < 256 ∧ b3 < 256 then
              if 56320 ≤ b2 + 256 * b3 ∧ b2 + 256 * b3 < 57344 then
                (dec16 rest2).map (fun l =>
                  (65536 + (b0 + 256 * b1 - 55296) * 1024 + (b2 + 256 * b3 - 56320)) :: l)
              else none
            else none
          | _ => none
        else none
      else none) := by
  simp only [dec16]

theorem dec16_bmp (b0 b1 : Nat) (rest : List Nat) (h01 : b0 < 256 ∧ b1 < 256)
    (hv : b0 + 256 * b1 < 55296 ∨ 57343 < b0 + 256 * b1) :
    dec16 (b0 :: b1 :: rest) = (dec16 rest).map (fun l => (b0 + 256 * b1) :: l) := by
  rw [dec16_cons2, if_pos h01, if_pos hv]

theorem dec16_quad (b0 b1 b2 b3 : Nat) (rest : List Nat)
    (h01 : b0 < 256 ∧ b1 < 256)
    (hs : 55296 ≤ b0 + 256 * b1) (hs2 : b0 + 256 * b1 < 56320) :
    dec16 (b0 :: b1 :: b2 :: b3 :: rest) =
      if b2 < 256 ∧ b3 < 256 then
        if 56320 ≤ b2 + 256 * b3 ∧ b2 + 256 * b3 < 57344 then
          (dec16 rest).map (fun l =>
            (65536 + (b0 + 256 * b1 - 55296) * 1024 + (b2 + 256 * b3 - 56320)) :: l)
        else none
      else none := by
  rw [dec16_cons2, if_pos h01]
  rw [if_neg (show ¬(b0 + 256 * b1 < 55296 ∨ 57343 < b0 + 256 * b1) from by omega)]
  rw [if_pos (show b0 + 256 * b1 < 56320 from hs2)]

theorem dec16_append : ∀ (cs : List Nat) (tail : List Nat),
    (∀ n ∈ cs, n.isValidChar) →
    dec16 (cs.flatMap utf16leChar ++ tail) = (dec16 tail).map (fun l => cs ++ l) := by
  intro cs
  induction cs with
  | nil =>
    intro tail _
    simp
  | cons c cs ih =>
    intro tail h
    have hc : c < 55296 ∨ (57343 < c ∧ c < 1114112) := h c (List.mem_cons_self _ _)
    have hrest : ∀ n ∈ cs, n.isValidChar := fun n hn => h n (List.mem_cons_of_mem _ hn)
    rw [List.flatMap_cons, List.append_assoc]
    by_cases hbmp : c < 65536
    · rw [show utf16leChar c = [c % 256, c / 256] from by simp [utf16leChar, hbmp]]
      rw [show (([c % 256, c / 256] : List Nat) ++ (cs.flatMap utf16leChar ++ tail)) =
          c % 256 :: c / 256 :: (cs.flatMap utf16leChar ++ tail) from rfl]
      rw [dec16_bmp _ _ _ ⟨by omega, by omega⟩ (by omega)]
      rw [show c % 256 + 256 * (c / 256) = c from by omega]
      rw [ih tail hrest, Option.map_map]
      rfl
    · rw [show utf16leChar c =
          [(55296 + (c - 65536) / 1024) % 256, (55296 + (c - 65536) / 1024) / 256,
           (56320 + (c - 65536) % 1024) % 256, (56320 + (c - 65536) % 1024) / 256] from by
        simp [utf16leChar, hbmp]]
      rw [show (([(55296 + (c - 65536) / 1024) % 256, (55296 + (c - 65536) / 1024) / 256,
           (56320 + (c - 65536) % 1024) % 256, (56320 + (c - 65536) % 1024) / 256] : List Nat) ++
          (cs.flatMap utf16leChar ++ tail)) =
          (55296 + (c - 65536) / 1024) % 256 :: (55296 + (c - 65536) / 1024) / 256 ::
          (56320 + (c - 65536) % 1024) % 256 :: (56320 + (c - 65536) % 1024) / 256 ::
          (cs.flatMap utf16leChar ++ tail) from rfl]
      have hcrng : 65536 ≤ c ∧ c < 1114112 := by omega
      rw [dec16_quad _ _ _ _ _ ⟨by omega, by omega⟩ (by omega) (by omega)]
      rw [if_pos ⟨by omega, by omega⟩]
      rw [if_pos ⟨by omega, by omega⟩]
      rw [show 65536 + ((55296 + (c - 65536) / 1024) % 256 +
          256 * ((55296 + (c - 65536) / 1024) / 256) - 55296) * 1024 +
          ((56320 + (c - 65536) % 1024) % 256 +
            256 * ((56320 + (c - 65536) % 1024) / 256) - 56320) = c from by omega]
      rw [ih tail hrest, Option.map_map]
      rfl

theorem dec16_utf16le (s : String) : dec16 (utf16le s) = some (strCodes s) := by
  have h := dec16_append (strCodes s) [] (by
    intro n hn
    obtain ⟨c, _, rfl⟩ := List.mem_map.1 hn
    exact c.valid)
  rw [List.append_nil] at h
  rw [utf16le, h]
  simp [dec16]

theorem strCodes_injective (s t : String) (h : strCodes s = strCodes t) : s = t := by
  cases s with
  | mk d1 =>
    cases t with
    | mk d2 =>
      have h2 : d1.map Char.toNat = d2.map Char.toNat := h
      have hinj : Function.Injective Char.toNat := StrictMono.injective fun _ _ hlt => hlt
      have hd : d1 = d2 := List.map_injective_iff.mpr hinj h2
      rw [hd]

theorem except_bind_ok {ε α β : Type} (x : α) (f : α → Except ε β) :
    (Except.ok x >>= f : Except ε β) = f x := rfl

theorem except_bind_err {ε α β : Type} (e : ε) (f : α → Except ε β) :
    (Except.error e >>= f : Except ε β) = Except.error e := rfl

theorem packTextChunk_ok (tag : Nat) (s : String) (c : Nat × List Nat)
    (h : SynoMetaConverter.packTextChunk tag s = .ok c) :
    c = (tag, utf16le s) ∧ (utf16le s).length < 4294967296 := by
  unfold SynoMetaConverter.packTextChunk at h
  split_ifs at h with hb
  injection h with h
  exact ⟨h.symm, hb⟩

theorem optTextChunk_ok (tag : Nat) (o : Option String) (cs : List (Nat × List Nat))
    (h : SynoMetaConverter.optTextChunk tag o = .ok cs) :
    cs = (o.map (fun s => (tag, utf16le s))).toList ∧ textLenOk o = true := by
  cases o with
  | none =>
    simp only [SynoMetaConverter.optTextChunk] at h
    injection h with h
    subst h
    exact ⟨rfl, rfl⟩
  | some s =>
    simp only [SynoMetaConverter.optTextChunk] at h
    cases hp : SynoMetaConverter.packTextChunk tag s with
    | error e => rw [hp] at h; exact Except.noConfusion h
    | ok c =>
      rw [hp] at h
      simp only [Except.map] at h
      injection h with h
      subst h
      obtain ⟨hc, hlen⟩ := packTextChunk_ok tag s c hp
      subst hc
      exact ⟨rfl, by simp [textLenOk, hlen]⟩

theorem packNumChunk_ok (tag : Nat) (v : PyNum) (c : Nat × List Nat)
    (h : SynoMetaConverter.packNumChunk tag v = .ok c) :
    ∃ k : Int, v = .intv k ∧ 0 ≤ k ∧ k < 4294967296 ∧ c = (tag, u32le k.toNat) := by
  cases v with
  | floatv q => exact Except.noConfusion h
  | intv k =>
    simp only [SynoMetaConverter.packNumChunk] at h
    split_ifs at h with hb
    injection h with h
    exact ⟨k, rfl, hb.1, hb.2, h.symm⟩

theorem mapM_packText_ok (tag : Nat) : ∀ (l : List String) (cs : List (Nat × List Nat)),
    l.mapM (SynoMetaConverter.packTextChunk tag) = .ok cs →
    cs = l.map (fun s => (tag, utf16le s)) ∧
      ∀ s ∈ l, (utf16le s).length < 4294967296 := by
  intro l
  induction l with
  | nil =>
    intro cs h
    simp only [List.mapM_nil] at h
    injection h with h
    subst h
    exact ⟨rfl, by simp⟩
  | cons s l ih =>
    intro cs h
    simp only [List.mapM_cons] at h
    cases hp : SynoMetaConverter.packTextChunk tag s with
    | error e =>
      rw [hp, except_bind_err] at h
      exact Except.noConfusion h
    | ok c =>
      rw [hp, except_bind_ok] at h
      cases hm : l.mapM (SynoMetaConverter.packTextChunk tag) with
      | error e =>
        rw [hm, except_bind_err] at h
        exact Except.noConfusion h
      | ok cs2 =>
        rw [hm, except_bind_ok] at h
        injection h with h
        subst h
        obtain ⟨hc, hlen⟩ := packTextChunk_ok tag s c hp
        obtain ⟨hcs, hlens⟩ := ih cs2 hm
        subst hc
        subst hcs
        refine ⟨rfl, ?_⟩
        intro x hx
        cases hx with
        | head => exact hlen
        | tail _ hx => exact hlens x hx

theorem generate_chunks_ok (m : ParsedMeta) (fs : List (Nat × List Nat))
    (h : SynoMetaConverter.generate_chunks m = .ok fs) :
    ∃ k : Int, m.rating = .intv k ∧ 0 ≤ k ∧ k < 4294967296 ∧
      0 ≤ m.year ∧ m.year < 4294967296 ∧ 0 ≤ m.runtime ∧ m.runtime < 4294967296 ∧
      textLenOk m.title = true ∧ textLenOk m.originaltitle = true ∧
      textLenOk m.plot = true ∧ textLenOk m.director = true ∧
      textLenOk m.genre = true ∧ textLenOk m.mpaa = true ∧
      (∀ s ∈ m.actors, (utf16le s).length < 4294967296) ∧
      (∀ s ∈ m.studio, (utf16le s).length < 4294967296) ∧
      fs = (m.title.map (fun s => (1, utf16le s))).toList ++
           ((m.originaltitle.map (fun s => (2, utf16le s))).toList ++
            ((m.plot.map (fun s => (3, utf16le s))).toList ++
             ([(4, u32le m.year.toNat)] ++
              ([(5, u32le k.toNat)] ++
               ((m.director.map (fun s => (7, utf16le s))).toList ++
                ((m.genre.map (fun s => (8, utf16le s))).toList ++
                 ((m.mpaa.map (fun s => (9, utf16le s))).toList ++
                  ([(13, u32le m.runtime.toNat)] ++
                   (m.actors.map (fun s => (6, utf16le s)) ++
                    m.studio.map (fun s => (12, utf16le s))))))))))) := by
  unfold SynoMetaConverter.generate_chunks at h
  cases h1 : SynoMetaConverter.optTextChunk 1 m.title with
  | error e => rw [h1, except_bind_err] at h; exact Except.noConfusion h
  | ok t =>
  rw [h1, except_bind_ok] at h
  cases h2 : SynoMetaConverter.optTextChunk 2 m.originaltitle with
  | error e => rw [h2, except_bind_err] at h; exact Except.noConfusion h
  | ok ot =>
  rw [h2, except_bind_ok] at h
  cases h3 : SynoMetaConverter.optTextChunk 3 m.plot with
  | error e => rw [h3, except_bind_err] at h; exact Except.noConfusion h
  | ok pl =>
  rw [h3, except_bind_ok] at h
  cases h4 : SynoMetaConverter.packNumChunk 4 (.intv m.year) with
  | error e => rw [h4, except_bind_err] at h; exact Except.noConfusion h
  | ok y =>
  rw [h4, except_bind_ok] at h
  cases h5 : SynoMetaConverter.packNumChunk 5 m.rating with
  | error e => rw [h5, except_bind_err] at h; exact Except.noConfusion h
  | ok r =>
  rw [h5, except_bind_ok] at h
  cases h6 : SynoMetaConverter.optTextChunk 7 m.director with
  | error e => rw [h6, except_bind_err] at h; exact Except.noConfusion h
  | ok di =>
  rw [h6, except_bind_ok] at h
  cases h7 : SynoMetaConverter.optTextChunk 8 m.genre with
  | error e => rw [h7, except_bind_err] at h; exact Except.noConfusion h
  | ok g =>
  rw [h7, except_bind_ok] at h
  cases h8 : SynoMetaConverter.optTextChunk 9 m.mpaa with
  | error e => rw [h8, except_bind_err] at h; exact Except.noConfusion h
  | ok mp =>
  rw [h8, except_bind_ok] at h
  cases h9 : SynoMetaConverter.packNumChunk 13 (.intv m.runtime) with
  | error e => rw [h9, except_bind_err] at h; exact Except.noConfusion h
  | ok rt =>
  rw [h9, except_bind_ok] at h
  cases h10 : m.actors.mapM (SynoMetaConverter.packTextChunk 6) with
  | error e => rw [h10, except_bind_err] at h; exact Except.noConfusion h
  | ok ac =>
  rw [h10, except_bind_ok] at h
  cases h11 : m.studio.mapM (SynoMetaConverter.packTextChunk 12) with
  | error e => rw [h11, except_bind_err] at h; exact Except.noConfusion h
  | ok st =>
  rw [h11, except_bind_ok] at h
  injection h with h
  subst h
  obtain ⟨ht, hlt⟩ := optTextChunk_ok _ _ _ h1
  obtain ⟨hot, hlot⟩ := optTextChunk_ok _ _ _ h2
  obtain ⟨hpl, hlpl⟩ := optTextChunk_ok _ _ _ h3
  obtain ⟨ky, hky, hy0, hy1, hcy⟩ := packNumChunk_ok _ _ _ h4
  obtain ⟨kr, hkr, hr0, hr1, hcr⟩ := packNumChunk_ok _ _ _ h5
  obtain ⟨hdi, hldi⟩ := optTextChunk_ok _ _ _ h6
  obtain ⟨hg, hlg⟩ := optTextChunk_ok _ _ _ h7
  obtain ⟨hmp, hlmp⟩ := optTextChunk_ok _ _ _ h8
  obtain ⟨krt, hkrt, hrt0, hrt1, hcrt⟩ := packNumChunk_ok _ _ _ h9
  obtain ⟨hac, hlac⟩ := mapM_packText_ok _ _ _ h10
  obtain ⟨hst, hlst⟩ := mapM_packText_ok _ _ _ h11
  injection hky with hky
  injection hkrt with hkrt
  subst hky
  subst hkrt
  refine ⟨kr, hkr, hr0, hr1, hy0, hy1, hrt0, hrt1, hlt, hlot, hlpl, hldi, hlg, hlmp,
    hlac, hlst, ?_⟩
  subst ht hot hpl hcy hcr hdi hg hmp hcrt hac hst
  simp [List.append_assoc]

theorem fieldPayloads_append (t : Nat) (a b : List (Nat × List Nat)) :
    fieldPayloads t (a ++ b) = fieldPayloads t a ++ fieldPayloads t b := by
  simp [fieldPayloads, List.filter_append]

theorem fieldPayloads_optChunk (t tg : Nat) (o : Option String) :
    fieldPayloads t ((o.map (fun s => (tg, utf16le s))).toList) =
      if tg = t then (o.map utf16le).toList else [] := by
  cases o with
  | none => simp [fieldPayloads]
  | some s => by_cases h : tg = t <;> simp [fieldPayloads, h]

theorem fieldPayloads_single (t tg : Nat) (p : List Nat) :
    fieldPayloads t [(tg, p)] = if tg = t then [p] else [] := by
  by_cases h : tg = t <;> simp [fieldPayloads, h]

theorem fieldPayloads_mapChunk (t tg : Nat) (l : List String) :
    fieldPayloads t (l.map (fun s => (tg, utf16le s))) =
      if tg = t then l.map utf16le else [] := by
  induction l with
  | nil => simp [fieldPayloads]
  | cons s l ih =>
    by_cases h : tg = t
    · subst h
      simp only [List.map_cons, fieldPayloads, List.filter_cons] at ih ⊢
      simp only [if_true] at ih
      rw [if_pos (by simp), List.map_cons, ih]
      simp
    · simp only [List.map_cons, fieldPayloads, List.filter_cons] at ih ⊢
      simp [h]

theorem u32val_u32le (n : Nat) (h : n < 4294967296) : u32val (u32le n) = some n := by
  have hr := readU32_encode n [] h
  rw [List.append_nil] at hr
  unfold u32val
  rw [hr]

theorem parse_nfo_ok_rating (d : NfoDoc) (m : ParsedMeta)
    (h : SynoMetaConverter.parse_nfo d = .ok m) :
    ∃ r : Rat, m.rating = ratingNormalize r := by
  unfold SynoMetaConverter.parse_nfo at h
  split at h
  · exact Except.noConfusion h
  next rs heq =>
    split at h
    · exact Except.noConfusion h
    next r heq2 =>
      split at h
      · exact Except.noConfusion h
      next ys heq3 =>
        split at h
        · exact Except.noConfusion h
        next y heq4 =>
          split at h
          · exact Except.noConfusion h
          next ts heq5 =>
            split at h
            · exact Except.noConfusion h
            next rt heq6 =>
              injection h with h
              subst h
              exact ⟨r, rfl⟩

theorem take_minus_four {α : Type} (l : List α) (a b c d : α) :
    (l ++ [a, b, c, d]).take ((l ++ [a, b, c, d]).length - 4) = l := by
  have hl : (l ++ [a, b, c, d]).length - 4 = l.length := by
    simp [List.length_append]
  rw [hl, List.take_left]

/-- C3: amended round-trip. The decoder (modelled from spec section 6, absent
from src) satisfies encode-after-decode identity; UTF-16LE code sequences
determine the string; and for every parse-producible metadata record,
decoding `generate_vsmeta`'s output with its final four sentinel bytes
stripped recovers every field (title, originaltitle, plot, director, genre,
mpaa over UTF-16LE, year, runtime and rating as packed integers, and the
actor and studio lists). Decoding the full output fails at the sentinel, per
`C3_decode_encode_fails_cex`. -/
theorem C3_round_trip :
    (∀ (bs : List Nat) (fs : List (Nat × List Nat)),
      decode bs = .ok fs → encodeRecord fs = bs) ∧
    (∀ s t : String, strCodes s = strCodes t → s = t) ∧
    (∀ (d : NfoDoc) (m : ParsedMeta) (fs : List (Nat × List Nat)) (bs : List Nat),
      SynoMetaConverter.parse_nfo d = .ok m →
      SynoMetaConverter.generate_chunks m = .ok fs →
      SynoMetaConverter.generate_vsmeta m = .ok bs →
      decode (bs.take (bs.length - 4)) = .ok fs ∧
      (fieldPayloads 1 fs).map dec16 = (m.title.map (fun s => some (strCodes s))).toList ∧
      (fieldPayloads 2 fs).map dec16 =
        (m.originaltitle.map (fun s => some (strCodes s))).toList ∧
      (fieldPayloads 3 fs).map dec16 = (m.plot.map (fun s => some (strCodes s))).toList ∧
      (fieldPayloads 7 fs).map dec16 = (m.director.map (fun s => some (strCodes s))).toList ∧
      (fieldPayloads 8 fs).map dec16 = (m.genre.map (fun s => some (strCodes s))).toList ∧
      (fieldPayloads 9 fs).map dec16 = (m.mpaa.map (fun s => some (strCodes s))).toList ∧
      (fieldPayloads 4 fs).map u32val = [some m.year.toNat] ∧
      ((m.year.toNat : Int) = m.year) ∧
      m.rating = .intv 10 ∧ (fieldPayloads 5 fs).map u32val = [some 10] ∧
      (fieldPayloads 13 fs).map u32val = [some m.runtime.toNat] ∧
      ((m.runtime.toNat : Int) = m.runtime) ∧
      (fieldPayloads 6 fs).map dec16 = m.actors.map (fun s => some (strCodes s)) ∧
      (fieldPayloads 12 fs).map dec16 = m.studio.map (fun s => some (strCodes s))) := by
  refine ⟨decode_sound, strCodes_injective, ?_⟩
  intro d m fs bs hparse hchunks hgen
  obtain ⟨k, hk, hk0, hk1, hy0, hy1, hrt0, hrt1, hlt, hlot, hlpl, hldi, hlg, hlmp,
    hlac, hlst, hfs⟩ := generate_chunks_ok m fs hchunks
  -- the rating that survives packing is the int 10
  obtain ⟨r, hr⟩ := parse_nfo_ok_rating d m hparse
  have hk10 : k = 10 := by
    rw [ratingNormalize_eq] at hr
    rw [hk] at hr
    by_cases hcond : (10 : Rat) < r * 2
    · rw [if_pos hcond] at hr
      exact PyNum.intv.inj hr
    · rw [if_neg hcond] at hr
      exact PyNum.noConfusion hr
  subst hk10
  have hrat10 : m.rating = PyNum.intv 10 := by rw [hk]
  -- the wire bytes are the record plus the end marker
  have hbs : bs = encodeRecord fs ++ [255, 0, 0, 0] := by
    unfold SynoMetaConverter.generate_vsmeta at hgen
    rw [hchunks] at hgen
    simp only [Except.map] at hgen
    injection hgen with hgen
    rw [← hgen, encodeRecord]
    rw [show u32le 255 = [255, 0, 0, 0] from rfl]
  -- validity of the fields for the decoder
  have hvalid : ∀ f ∈ fs, f.1 < 4294967296 ∧ f.2.length < 4294967296 := by
    intro f hf
    rw [hfs] at hf
    simp only [List.mem_append] at hf
    have htext : ∀ (tg : Nat) (o : Option String), tg < 4294967296 → textLenOk o = true →
        f ∈ (o.map (fun s => (tg, utf16le s))).toList →
        f.1 < 4294967296 ∧ f.2.length < 4294967296 := by
      intro tg o htg hlen hm
      cases o with
      | none => simp at hm
      | some s =>
        have hm2 : f = (tg, utf16le s) := by simpa using hm
        subst hm2
        simp only [textLenOk] at hlen
        exact ⟨htg, by simpa using hlen⟩
    have hmap : ∀ (tg : Nat) (l : List String), tg < 4294967296 →
        (∀ s ∈ l, (utf16le s).length < 4294967296) →
        f ∈ l.map (fun s => (tg, utf16le s)) →
        f.1 < 4294967296 ∧ f.2.length < 4294967296 := by
      intro tg l htg hlen hm
      obtain ⟨s, hs, rfl⟩ := List.mem_map.1 hm
      exact ⟨htg, hlen s hs⟩
    have hnum : ∀ (tg n : Nat), tg < 4294967296 → f ∈ ([(tg, u32le n)] : List (Nat × List Nat)) →
        f.1 < 4294967296 ∧ f.2.length < 4294967296 := by
      intro tg n htg hm
      simp only [List.mem_singleton] at hm
      subst hm
      exact ⟨htg, by simp [u32le]⟩
    rcases hf with hf | hf | hf | hf | hf | hf | hf | hf | hf | hf | hf
    · exact htext 1 m.title (by norm_num) hlt hf
    · exact htext 2 m.originaltitle (by norm_num) hlot hf
    · exact htext 3 m.plot (by norm_num) hlpl hf
    · exact hnum 4 m.year.toNat (by norm_num) hf
    · exact hnum 5 (Int.toNat 10) (by norm_num) hf
    · exact htext 7 m.director (by norm_num) hldi hf
    · exact htext 8 m.genre (by norm_num) hlg hf
    · exact htext 9 m.mpaa (by norm_num) hlmp hf
    · exact hnum 13 m.runtime.toNat (by norm_num) hf
    · exact hmap 6 m.actors (by norm_num) hlac hf
    · exact hmap 12 m.studio (by norm_num) hlst hf
  refine ⟨?_, ?_, ?_, ?_, ?_, ?_, ?_, ?_, ?_, hrat10, ?_, ?_, ?_, ?_, ?_⟩
  · rw [hbs, take_minus_four]
    exact decode_complete fs hvalid
  · rw [hfs]
    simp only [fieldPayloads_append, fieldPayloads_optChunk, fieldPayloads_single,
      fieldPayloads_mapChunk]
    norm_num
    cases m.title <;> simp [dec16_utf16le]
  · rw [hfs]
    simp only [fieldPayloads_append, fieldPayloads_optChunk, fieldPayloads_single,
      fieldPayloads_mapChunk]
    norm_num
    cases m.originaltitle <;> simp [dec16_utf16le]
  · rw [hfs]
    simp only [fieldPayloads_append, fieldPayloads_optChunk, fieldPayloads_single,
      fieldPayloads_mapChunk]
    norm_num
    cases m.plot <;> simp [dec16_utf16le]
  · rw [hfs]
    simp only [fieldPayloads_append, fieldPayloads_optChunk, fieldPayloads_single,
      fieldPayloads_mapChunk]
    norm_num
    cases m.director <;> simp [dec16_utf16le]
  · rw [hfs]
    simp only [fieldPayloads_append, fieldPayloads_optChunk, fieldPayloads_single,
      fieldPayloads_mapChunk]
    norm_num
    cases m.genre <;> simp [dec16_utf16le]
  · rw [hfs]
    simp only [fieldPayloads_append, fieldPayloads_optChunk, fieldPayloads_single,
      fieldPayloads_mapChunk]
    norm_num
    cases m.mpaa <;> simp [dec16_utf16le]
  · rw [hfs]
    simp only [fieldPayloads_append, fieldPayloads_optChunk, fieldPayloads_single,
      fieldPayloads_mapChunk]
    norm_num
    rw [u32val_u32le _ (by omega)]
  · omega
  · rw [hfs]
    simp only [fieldPayloads_append, fieldPayloads_optChunk, fieldPayloads_single,
      fieldPayloads_mapChunk]
    norm_num
    rw [u32val_u32le _ (by norm_num)]
    decide
  · rw [hfs]
    simp only [fieldPayloads_append, fieldPayloads_optChunk, fieldPayloads_single,
      fieldPayloads_mapChunk]
    norm_num
    rw [u32val_u32le _ (by omega)]
  · omega
  · rw [hfs]
    simp only [fieldPayloads_append, fieldPayloads_optChunk, fieldPayloads_single,
      fieldPayloads_mapChunk]
    norm_num
    intro s _
    exact dec16_utf16le s
  · rw [hfs]
    simp only [fieldPayloads_append, fieldPayloads_optChunk, fieldPayloads_single,
      fieldPayloads_mapChunk]
    norm_num
    intro s _
    exact dec16_utf16le s

/-- C8: amended. The CS converter's `_generate_vsmeta` always appends the
four little-endian bytes of 0xFF after the encoded chunks, so its output ends
in the marker `FF 00 00 00` unconditionally, while the DSM7 converter's
`generate_vsmeta` appends no marker at all: its output is exactly header,
year chunk and rating chunk. No configuration selects between these. -/
theorem C8_end_marker : ∀ (m : ParsedMeta) (bs : List Nat),
    SynoMetaConverter.generate_vsmeta m = .ok bs →
    (∃ fs, SynoMetaConverter.generate_chunks m = .ok fs ∧
      bs = encodeRecord fs ++ [255, 0, 0, 0]) ∧
    bs.drop (bs.length - 4) = [255, 0, 0, 0] ∧
    (∀ (m2 : Dsm7Meta) (bs2 : List Nat), DSM7Converter.generate_vsmeta m2 = .ok bs2 →
      bs2 = SynoMetaConverter.vsmetaHeader ++ u32le 4 ++ u32le 4 ++ u32le m2.year.toNat ++
        u32le 5 ++ u32le 4 ++ fl32le m2.rating.toRat) := by
  intro m bs hgen
  have hex : ∃ fs, SynoMetaConverter.generate_chunks m = .ok fs ∧
      bs = encodeRecord fs ++ [255, 0, 0, 0] := by
    unfold SynoMetaConverter.generate_vsmeta at hgen
    cases hc : SynoMetaConverter.generate_chunks m with
    | error e => rw [hc] at hgen; exact Except.noConfusion hgen
    | ok fs =>
      rw [hc] at hgen
      simp only [Except.map] at hgen
      injection hgen with hgen
      refine ⟨fs, rfl, ?_⟩
      rw [← hgen, encodeRecord]
      rw [show u32le 255 = [255, 0, 0, 0] from rfl]
  obtain ⟨fs, hc, hb⟩ := hex
  refine ⟨⟨fs, hc, hb⟩, ?_, ?_⟩
  · rw [hb]
    have hl : (encodeRecord fs ++ [255, 0, 0, 0]).length - 4 = (encodeRecord fs).length := by
      simp [List.length_append]
    rw [hl, List.drop_left]
  · intro m2 bs2 h2
    unfold DSM7Converter.generate_vsmeta at h2
    split_ifs at h2 with ht hy
    injection h2 with h2
    rw [← h2]

theorem optTextChunk_of_len (tag : Nat) (o : Option String) (h : textLenOk o = true) :
    SynoMetaConverter.optTextChunk tag o =
      .ok ((o.map (fun s => (tag, utf16le s))).toList) := by
  cases o with
  | none => rfl
  | some s =>
    simp only [textLenOk] at h
    simp only [SynoMetaConverter.optTextChunk, SynoMetaConverter.packTextChunk]
    rw [if_pos (by simpa using h)]
    rfl

theorem packNumChunk_int_of (tag : Nat) (j : Int) (h0 : 0 ≤ j) (h1 : j < 4294967296) :
    SynoMetaConverter.packNumChunk tag (.intv j) = .ok (tag, u32le j.toNat) := by
  simp [SynoMetaConverter.packNumChunk, h0, h1]

theorem mapM_packText_of (tag : Nat) : ∀ (l : List String),
    (∀ s ∈ l, (utf16le s).length < 4294967296) →
    l.mapM (SynoMetaConverter.packTextChunk tag) = .ok (l.map (fun s => (tag, utf16le s))) := by
  intro l
  induction l with
  | nil => intro _; rfl
  | cons s l ih =>
    intro h
    have hs := h s (List.mem_cons_self _ _)
    have hl : ∀ x ∈ l, (utf16le x).length < 4294967296 :=
      fun x hx => h x (List.mem_cons_of_mem _ hx)
    simp only [List.mapM_cons]
    rw [show SynoMetaConverter.packTextChunk tag s = .ok (tag, utf16le s) from by
      simp [SynoMetaConverter.packTextChunk, hs]]
    rw [except_bind_ok, ih hl, except_bind_ok]
    rfl

theorem parse_nfo_ok_shape (d : NfoDoc) (m : ParsedMeta) (rs : String) (r : Rat)
    (h : SynoMetaConverter.parse_nfo d = .ok m)
    (hrs : textOf d.rating = some rs) (hr : pyFloat rs = some r) :
    m.rating = ratingNormalize r := by
  unfold SynoMetaConverter.parse_nfo at h
  split at h
  · exact Except.noConfusion h
  next rs2 heq =>
    rw [hrs] at heq
    injection heq with heq
    subst heq
    split at h
    · exact Except.noConfusion h
    next r2 heq2 =>
      rw [hr] at heq2
      injection heq2 with heq2
      subst heq2
      split at h
      · exact Except.noConfusion h
      next ys heq3 =>
        split at h
        · exact Except.noConfusion h
        next y heq4 =>
          split at h
          · exact Except.noConfusion h
          next ts heq5 =>
            split at h
            · exact Except.noConfusion h
            next rt heq6 =>
              injection h with h
              subst h
              rfl

/-- C9: amended. For a parsed rating float r, `min(r*2, 10)` keeps the float
whenever `r*2 <= 10` — including integral-valued floats such as 5.0 — and
then the all-integer pack format `<III` raises struct.error, which
`convert_nfo` turns into a failed outcome with no output written; only when
`r*2 > 10` does the min return the int 10 and the pack succeed. -/
theorem C9_float_rating_pack : ∀ (d : NfoDoc) (m : ParsedMeta) (rs : String) (r : Rat),
    SynoMetaConverter.parse_nfo d = .ok m →
    textOf d.rating = some rs →
    pyFloat rs = some r →
    (m.rating = ratingNormalize r) ∧
    (r * 2 ≤ 10 → m.rating = .floatv (r * 2)) ∧
    (r * 2 ≤ 10 → preRatingOk m = true →
      SynoMetaConverter.generate_vsmeta m = .error .structNotInt ∧
      (∀ (cp nfo : String) (clock mt : Nat) (fs : SimFS),
        fs nfo = some (mt, .vnfo d) → fs (vsmetaPathOf nfo) = none →
        SynoMetaConverter.convert_nfo cp clock fs nfo = .ok (fs, .failed .structNotInt))) ∧
    (10 < r * 2 → m.rating = .intv 10) ∧
    (10 < r * 2 → preRatingOk m = true → postRatingOk m = true →
      ∃ bs, SynoMetaConverter.generate_vsmeta m = .ok bs) := by
  intro d m rs r hparse hrs hr
  have hshape := parse_nfo_ok_shape d m rs r hparse hrs hr
  have hnorm := ratingNormalize_eq r
  refine ⟨hshape, ?_, ?_, ?_, ?_⟩
  · intro hle
    rw [hshape, hnorm, if_neg (by linarith)]
  · intro hle hpre
    have hfl : m.rating = .floatv (r * 2) := by
      rw [hshape, hnorm, if_neg (by linarith)]
    simp only [preRatingOk, Bool.and_eq_true, decide_eq_true_eq] at hpre
    obtain ⟨⟨⟨⟨hlt, hlot⟩, hlpl⟩, hy0⟩, hy1⟩ := hpre
    have hchunks : SynoMetaConverter.generate_chunks m = .error .structNotInt := by
      unfold SynoMetaConverter.generate_chunks
      rw [optTextChunk_of_len 1 _ hlt, except_bind_ok]
      rw [optTextChunk_of_len 2 _ hlot, except_bind_ok]
      rw [optTextChunk_of_len 3 _ hlpl, except_bind_ok]
      rw [packNumChunk_int_of 4 _ hy0 hy1, except_bind_ok]
      rw [hfl]
      rfl
    have hgen : SynoMetaConverter.generate_vsmeta m = .error .structNotInt := by
      unfold SynoMetaConverter.generate_vsmeta
      rw [hchunks]
      rfl
    refine ⟨hgen, ?_⟩
    intro cp nfo clock mt fs hnfo hvsm
    unfold SynoMetaConverter.convert_nfo
    simp only [SynoMetaConverter.check_cache, hvsm, hnfo, hparse, hgen]
  · intro hgt
    rw [hshape, hnorm, if_pos hgt]
  · intro hgt hpre hpost
    have hint : m.rating = .intv 10 := by
      rw [hshape, hnorm, if_pos hgt]
    simp only [preRatingOk, Bool.and_eq_true, decide_eq_true_eq] at hpre
    obtain ⟨⟨⟨⟨hlt, hlot⟩, hlpl⟩, hy0⟩, hy1⟩ := hpre
    simp only [postRatingOk, Bool.and_eq_true, decide_eq_true_eq, List.all_eq_true,
      decide_eq_true_eq] at hpost
    obtain ⟨⟨⟨⟨⟨⟨hldi, hlg⟩, hlmp⟩, hrt0⟩, hrt1⟩, hac⟩, hst⟩ := hpost
    have hchunks : ∃ fs, SynoMetaConverter.generate_chunks m = .ok fs := by
      unfold SynoMetaConverter.generate_chunks
      rw [optTextChunk_of_len 1 _ hlt, except_bind_ok]
      rw [optTextChunk_of_len 2 _ hlot, except_bind_ok]
      rw [optTextChunk_of_len 3 _ hlpl, except_bind_ok]
      rw [packNumChunk_int_of 4 _ hy0 hy1, except_bind_ok]
      rw [hint, packNumChunk_int_of 5 10 (by norm_num) (by norm_num), except_bind_ok]
      rw [optTextChunk_of_len 7 _ hldi, except_bind_ok]
      rw [optTextChunk_of_len 8 _ hlg, except_bind_ok]
      rw [optTextChunk_of_len 9 _ hlmp, except_bind_ok]
      rw [packNumChunk_int_of 13 _ hrt0 hrt1, except_bind_ok]
      rw [mapM_packText_of 6 _ hac, except_bind_ok]
      rw [mapM_packText_of 12 _ hst, except_bind_ok]
      exact ⟨_, rfl⟩
    obtain ⟨fs, hfs⟩ := hchunks
    refine ⟨SynoMetaConverter.vsmetaHeader ++
      (fs.map SynoMetaConverter.encodeField).flatten ++ u32le 255, ?_⟩
    unfold SynoMetaConverter.generate_vsmeta
    rw [hfs]
    rfl

/-- C8 witness: the amended statement at the concrete record of `exMeta8`. -/
theorem C8_end_marker_witness :
    exBytes8.drop (exBytes8.length - 4) = [255, 0, 0, 0] :=
  (C8_end_marker exMeta8 exBytes8 (by decide)).2.1

/-- C9 witness: the amended statement at the concrete NFO with rating 2.5:
its doubled rating 5.0 stays a float and the integer pack fails. -/
theorem C9_float_rating_pack_witness :
    exMeta9.rating = .floatv (mkRat 5 2 * 2) ∧
    SynoMetaConverter.generate_vsmeta exMeta9 = .error .structNotInt := by
  have h := C9_float_rating_pack exDoc9 exMeta9 ("2.5") (mkRat 5 2)
    (by decide) (by decide) (by decide)
  refine ⟨h.2.1 ?_, (h.2.2.1 ?_ (by decide)).1⟩
  · rw [Rat.mkRat_eq_div]
    norm_num
  · rw [Rat.mkRat_eq_div]
    norm_num

/-- C3 witness: the spec-modelled decoder recovers the encoder's Field
entries from the sentinel-stripped bytes of the concrete record of
`exDoc3`. -/
theorem C3_round_trip_witness :
    decode (exBytes3.take (exBytes3.length - 4)) = .ok exChunks3 :=
  (C3_round_trip.2.2 exDoc3 exMeta3 exChunks3 exBytes3 (by decide) (by decide) (by decide)).1

theorem upd_self (fs : SimFS) (p : String) (v : Option (Nat × VFile)) : upd fs p v p = v := by
  simp [upd]

theorem upd_ne (fs : SimFS) (p q : String) (v : Option (Nat × VFile)) (h : q ≠ p) :
    upd fs p v q = fs q := by
  simp [upd, h]

theorem convert_nfo_ok_cases (cp : String) (clock : Nat) (fs : SimFS) (f : String)
    (fs2 : SimFS) (o : Outcome)
    (h : SynoMetaConverter.convert_nfo cp clock fs f = .ok (fs2, o)) :
    (fs2 = fs ∧ o = .skipped ∧ ∃ vmt x nmt y, fs (vsmetaPathOf f) = some (vmt, x) ∧
        fs f = some (nmt, y) ∧ nmt ≤ vmt) ∨
    (fs2 = fs ∧ ∃ e, o = .failed e) ∨
    (o = .converted ∧ ∃ mt d bs, fs f = some (mt, .vnfo d) ∧
      fs2 = SynoMetaConverter.update_cache cp clock
        (upd fs (vsmetaPathOf f) (some (clock, .vbin bs))) f) := by
  cases hcc : SynoMetaConverter.check_cache fs f (vsmetaPathOf f) with
  | error e =>
    simp only [SynoMetaConverter.convert_nfo, hcc] at h
    exact Except.noConfusion h
  | ok b =>
    cases b with
    | true =>
      simp only [SynoMetaConverter.convert_nfo, hcc, Except.ok.injEq, Prod.mk.injEq] at h
      obtain ⟨h1, h2⟩ := h
      left
      refine ⟨h1.symm, h2.symm, ?_⟩
      unfold SynoMetaConverter.check_cache at hcc
      cases hv : fs (vsmetaPathOf f) with
      | none =>
        simp only [hv] at hcc
        exact absurd (Except.ok.inj hcc) (by simp)
      | some p =>
        obtain ⟨vmt, x⟩ := p
        cases hn : fs f with
        | none =>
          simp only [hv, hn] at hcc
          exact Except.noConfusion hcc
        | some q =>
          obtain ⟨nmt, y⟩ := q
          simp only [hv, hn, Except.ok.injEq] at hcc
          exact ⟨vmt, x, nmt, y, rfl, rfl, by simpa using hcc⟩
    | false =>
      cases hfsf : fs f with
      | none =>
        simp only [SynoMetaConverter.convert_nfo, hcc, hfsf, Except.ok.injEq,
          Prod.mk.injEq] at h
        obtain ⟨h1, h2⟩ := h
        right; left
        exact ⟨h1.symm, _, h2.symm⟩
      | some data =>
        obtain ⟨mt, file⟩ := data
        cases file with
        | vbin b =>
          simp only [SynoMetaConverter.convert_nfo, hcc, hfsf, Except.ok.injEq,
            Prod.mk.injEq] at h
          obtain ⟨h1, h2⟩ := h
          right; left
          exact ⟨h1.symm, _, h2.symm⟩
        | vtext t =>
          simp only [SynoMetaConverter.convert_nfo, hcc, hfsf, Except.ok.injEq,
            Prod.mk.injEq] at h
          obtain ⟨h1, h2⟩ := h
          right; left
          exact ⟨h1.symm, _, h2.symm⟩
        | vnfo d =>
          cases hp : SynoMetaConverter.parse_nfo d with
          | error e =>
            simp only [SynoMetaConverter.convert_nfo, hcc, hfsf, hp, Except.ok.injEq,
              Prod.mk.injEq] at h
            obtain ⟨h1, h2⟩ := h
            right; left
            exact ⟨h1.symm, _, h2.symm⟩
          | ok m =>
            cases hg : SynoMetaConverter.generate_vsmeta m with
            | error e =>
              simp only [SynoMetaConverter.convert_nfo, hcc, hfsf, hp, hg, Except.ok.injEq,
                Prod.mk.injEq] at h
              obtain ⟨h1, h2⟩ := h
              right; left
              exact ⟨h1.symm, _, h2.symm⟩
            | ok bs =>
              simp only [SynoMetaConverter.convert_nfo, hcc, hfsf, hp, hg, Except.ok.injEq,
                Prod.mk.injEq] at h
              obtain ⟨h1, h2⟩ := h
              right; right
              exact ⟨h2.symm, mt, d, bs, rfl, h1.symm⟩

theorem convert_nfo_preserves (cp : String) (clock : Nat) (fs : SimFS) (f : String)
    (fs2 : SimFS) (o : Outcome)
    (h : SynoMetaConverter.convert_nfo cp clock fs f = .ok (fs2, o))
    (p : String) (hp : p ≠ cp) (hpv : p ≠ vsmetaPathOf f) :
    fs2 p = fs p := by
  rcases convert_nfo_ok_cases cp clock fs f fs2 o h with
    ⟨h1, _⟩ | ⟨h1, _⟩ | ⟨_, mt, d, bs, _, h1⟩
  · rw [h1]
  · rw [h1]
  · rw [h1]
    unfold SynoMetaConverter.update_cache
    rw [upd_ne _ _ _ _ hp, upd_ne _ _ _ _ hpv]

theorem convert_nfo_skips (cp : String) (clock : Nat) (fs : SimFS) (f : String)
    (nmt vmt : Nat) (x y : VFile)
    (hn : fs f = some (nmt, x)) (hv : fs (vsmetaPathOf f) = some (vmt, y))
    (hle : nmt ≤ vmt) :
    SynoMetaConverter.convert_nfo cp clock fs f = .ok (fs, .skipped) := by
  simp only [SynoMetaConverter.convert_nfo, SynoMetaConverter.check_cache, hn, hv, hle,
    decide_eq_true_eq, decide_True]

theorem convert_nfo_post (cp : String) (clock : Nat) (fs : SimFS) (f : String)
    (fs2 : SimFS) (o : Outcome) (mt : Nat) (d : NfoDoc)
    (h : SynoMetaConverter.convert_nfo cp clock fs f = .ok (fs2, o))
    (ho : o = .converted ∨ o = .skipped)
    (hf : fs f = some (mt, .vnfo d)) (hmt : mt ≤ clock)
    (hfc : f ≠ cp) (hfv : vsmetaPathOf f ≠ f) (hvc : vsmetaPathOf f ≠ cp) :
    (∃ vmt y, fs2 (vsmetaPathOf f) = some (vmt, y) ∧ mt ≤ vmt) ∧ fs2 f = fs f := by
  rcases convert_nfo_ok_cases cp clock fs f fs2 o h with
    ⟨h1, _, vmt, x, nmt, y, hv, hn, hle⟩ | ⟨h1, e, he⟩ | ⟨_, mt2, d2, bs, hf2, h1⟩
  · subst h1
    rw [hf] at hn
    injection hn with hn
    injection hn with hn1 hn2
    subst hn1
    exact ⟨⟨vmt, x, hv, hle⟩, rfl⟩
  · subst he
    rcases ho with ho | ho <;> exact Outcome.noConfusion ho
  · subst h1
    constructor
    · refine ⟨clock, .vbin bs, ?_, hmt⟩
      unfold SynoMetaConverter.update_cache
      rw [upd_ne _ _ _ _ hvc, upd_self]
    · unfold SynoMetaConverter.update_cache
      rw [upd_ne _ _ _ _ hfc, upd_ne _ _ _ _ (fun hh => hfv hh.symm)]

theorem runAll_preserves (cp : String) : ∀ (l : List String) (clock : Nat) (fs fs2 : SimFS)
    (outs : List Outcome),
    SynoMetaConverter.runAll cp clock fs l = .ok (fs2, outs) →
    ∀ p, p ≠ cp → (∀ g ∈ l, p ≠ vsmetaPathOf g) → fs2 p = fs p := by
  intro l
  induction l with
  | nil =>
    intro clock fs fs2 outs h p _ _
    simp only [SynoMetaConverter.runAll, Except.ok.injEq, Prod.mk.injEq] at h
    rw [← h.1]
  | cons g l ih =>
    intro clock fs fs2 outs h p hp hpv
    cases hc : SynoMetaConverter.convert_nfo cp clock fs g with
    | error e =>
      simp only [SynoMetaConverter.runAll, hc] at h
      exact Except.noConfusion h
    | ok r =>
      obtain ⟨fsa, o⟩ := r
      cases hr : SynoMetaConverter.runAll cp (clock + 1) fsa l with
      | error e =>
        simp only [SynoMetaConverter.runAll, hc, hr] at h
        exact Except.noConfusion h
      | ok r2 =>
        obtain ⟨fsb, os⟩ := r2
        simp only [SynoMetaConverter.runAll, hc, hr, Except.ok.injEq, Prod.mk.injEq] at h
        obtain ⟨h1, _⟩ := h
        have hstep := convert_nfo_preserves cp clock fs g fsa o hc p hp
          (hpv g (List.mem_cons_self _ _))
        have hrest := ih (clock + 1) fsa fsb os hr p hp
          (fun x hx => hpv x (List.mem_cons_of_mem _ hx))
        rw [← h1, hrest, hstep]

theorem sepPaths_tail (cp : String) (g : String) (l : List String)
    (h : sepPaths cp (g :: l)) : sepPaths cp l := by
  obtain ⟨h1, h2, h3, h4⟩ := h
  exact ⟨(List.nodup_cons.mp h1).2, (List.nodup_cons.mp (by simpa using h2)).2,
    fun f hf => h3 f (List.mem_cons_of_mem _ hf),
    fun f hf x hx => h4 f (List.mem_cons_of_mem _ hf) x (List.mem_cons_of_mem _ hx)⟩

theorem run1_post (cp : String) : ∀ (nfos : List String) (clock : Nat) (fs fs1 : SimFS)
    (outs1 : List Outcome),
    sepPaths cp nfos →
    (∀ f ∈ nfos, ∃ mt d, fs f = some (mt, .vnfo d) ∧ mt ≤ clock) →
    SynoMetaConverter.runAll cp clock fs nfos = .ok (fs1, outs1) →
    (∀ o ∈ outs1, o = .converted ∨ o = .skipped) →
    ∀ f ∈ nfos, ∃ mt x vmt y, fs1 f = some (mt, x) ∧
      fs1 (vsmetaPathOf f) = some (vmt, y) ∧ mt ≤ vmt := by
  intro nfos
  induction nfos with
  | nil =>
    intro clock fs fs1 outs1 _ _ _ _ f hf
    exact absurd hf (List.not_mem_nil f)
  | cons g l ih =>
    intro clock fs fs1 outs1 hsep hex h houts f hf
    cases hc : SynoMetaConverter.convert_nfo cp clock fs g with
    | error e =>
      simp only [SynoMetaConverter.runAll, hc] at h
      exact Except.noConfusion h
    | ok r =>
      obtain ⟨fsa, o⟩ := r
      cases hr : SynoMetaConverter.runAll cp (clock + 1) fsa l with
      | error e =>
        simp only [SynoMetaConverter.runAll, hc, hr] at h
        exact Except.noConfusion h
      | ok r2 =>
        obtain ⟨fsb, os⟩ := r2
        simp only [SynoMetaConverter.runAll, hc, hr, Except.ok.injEq, Prod.mk.injEq] at h
        obtain ⟨h1, h2⟩ := h
        obtain ⟨mtg, dg, hgf, hgle⟩ := hex g (List.mem_cons_self _ _)
        have hog : o = .converted ∨ o = .skipped := by
          apply houts
          rw [← h2]
          exact List.mem_cons_self _ _
        have hpost := convert_nfo_post cp clock fs g fsa o mtg dg hc hog hgf hgle
          ((hsep.2.2.1 g (List.mem_cons_self _ _)).1)
          (fun hh => by
            have := hsep.2.2.2 g (List.mem_cons_self _ _) g (List.mem_cons_self _ _)
            exact this hh)
          ((hsep.2.2.1 g (List.mem_cons_self _ _)).2)
        rcases List.mem_cons.mp hf with hfg | hf
        · -- f is the head g: its entries survive the tail run
          subst hfg
          obtain ⟨⟨vmt, y, hvsm, hvle⟩, hsame⟩ := hpost
          have hpg : fs1 f = fsa f := by
            rw [← h1]
            apply runAll_preserves cp l (clock + 1) fsa fsb os hr
            · exact (hsep.2.2.1 f (List.mem_cons_self _ _)).1
            · intro x hx
              have := hsep.2.2.2 x (List.mem_cons_of_mem _ hx) f (List.mem_cons_self _ _)
              exact fun hh => this hh.symm
          have hpv : fs1 (vsmetaPathOf f) = fsa (vsmetaPathOf f) := by
            rw [← h1]
            apply runAll_preserves cp l (clock + 1) fsa fsb os hr
            · exact (hsep.2.2.1 f (List.mem_cons_self _ _)).2
            · intro x hx
              have hnd := hsep.2.1
              rw [List.map_cons, List.nodup_cons] at hnd
              exact fun hh => hnd.1 (hh ▸ List.mem_map_of_mem vsmetaPathOf hx)
          rw [hpg, hpv]
          have : fsa f = fs f := hsame
          rw [this, hgf]
          exact ⟨mtg, .vnfo dg, vmt, y, rfl, hvsm, hvle⟩
        · -- f is in the tail
          rw [← h1]
          have hsep' := sepPaths_tail cp g l hsep
          have hex' : ∀ x ∈ l, ∃ mt d, fsa x = some (mt, VFile.vnfo d) ∧ mt ≤ clock + 1 := by
            intro x hx
            obtain ⟨mt, d, hx1, hx2⟩ := hex x (List.mem_cons_of_mem _ hx)
            refine ⟨mt, d, ?_, by omega⟩
            rw [convert_nfo_preserves cp clock fs g fsa o hc x
              ((hsep.2.2.1 x (List.mem_cons_of_mem _ hx)).1)
              (fun hh => (hsep.2.2.2 g (List.mem_cons_self _ _) x
                (List.mem_cons_of_mem _ hx)) hh.symm)]
            exact hx1
          have houts' : ∀ ox ∈ os, ox = Outcome.converted ∨ ox = Outcome.skipped := by
            intro ox hox
            apply houts
            rw [← h2]
            exact List.mem_cons_of_mem _ hox
          exact ih (clock + 1) fsa fsb os hsep' hex' hr houts' f hf

theorem run2_skips (cp : String) : ∀ (nfos : List String) (clock : Nat) (fs : SimFS),
    (∀ f ∈ nfos, ∃ nmt x vmt y, fs f = some (nmt, x) ∧
      fs (vsmetaPathOf f) = some (vmt, y) ∧ nmt ≤ vmt) →
    SynoMetaConverter.runAll cp clock fs nfos =
      .ok (fs, List.replicate nfos.length Outcome.skipped) := by
  intro nfos
  induction nfos with
  | nil => intro clock fs _; rfl
  | cons g l ih =>
    intro clock fs h
    obtain ⟨nmt, x, vmt, y, h1, h2, h3⟩ := h g (List.mem_cons_self _ _)
    have hc := convert_nfo_skips cp clock fs g nmt vmt x y h1 h2 h3
    have hr := ih (clock + 1) fs (fun f hf => h f (List.mem_cons_of_mem _ hf))
    simp only [SynoMetaConverter.runAll, hc, hr, List.length_cons, List.replicate_succ]

/-- C5: amended form. After a run of the converter over separated paths in
which every file was converted or skipped (none failed), a second run over the
same files skips every one of them and leaves the tree unchanged: the skip
decision compares the nfo mtime with the vsmeta mtime, both of which the first
run has arranged. -/
theorem C5_second_run_skips (cp : String) (clock1 clock2 : Nat) (fs fs1 : SimFS)
    (nfos : List String) (outs1 : List Outcome)
    (hsep : sepPaths cp nfos)
    (hex : ∀ f ∈ nfos, ∃ mt d, fs f = some (mt, VFile.vnfo d) ∧ mt ≤ clock1)
    (hrun : SynoMetaConverter.runAll cp clock1 fs nfos = .ok (fs1, outs1))
    (houts : ∀ o ∈ outs1, o = Outcome.converted ∨ o = Outcome.skipped) :
    SynoMetaConverter.runAll cp clock2 fs1 nfos =
      .ok (fs1, List.replicate nfos.length Outcome.skipped) := by
  apply run2_skips
  intro f hf
  obtain ⟨mt, xx, vmt, y, e1, e2, e3⟩ :=
    run1_post cp nfos clock1 fs fs1 outs1 hsep hex hrun houts f hf
  exact ⟨mt, xx, vmt, y, e1, e2, e3⟩

/-- C5 witness: on a tree where `a.nfo` (mtime 0) already has `a.vsmeta`
(mtime 5), the first run skips, and the second run then also skips. -/
theorem C5_second_run_skips_witness :
    SynoMetaConverter.runAll ("c") 9 exFsPre [("a.nfo")] =
      .ok (exFsPre, List.replicate 1 Outcome.skipped) := by
  apply C5_second_run_skips ("c") 0 9 exFsPre exFsPre [("a.nfo")] [Outcome.skipped]
  · refine ⟨List.nodup_singleton _, List.nodup_singleton _, ?_, ?_⟩
    · intro f hf
      rw [List.mem_singleton] at hf
      subst hf
      exact ⟨by decide, by decide⟩
    · intro f hf g hg
      rw [List.mem_singleton] at hf hg
      subst hf; subst hg
      decide
  · intro f hf
    rw [List.mem_singleton] at hf
    subst hf
    exact ⟨0, exDoc3, rfl, Nat.zero_le _⟩
  · rfl
  · intro o ho
    rw [List.mem_singleton] at ho
    subst ho
    exact Or.inr rfl

theorem convert_nfo_agree (cp : String) (clock : Nat) (fsA fsB : SimFS) (f : String)
    (hag : ∀ p, p ≠ cp → fsA p = fsB p)
    (hf : f ≠ cp) (hv : vsmetaPathOf f ≠ cp) :
    ((SynoMetaConverter.convert_nfo cp clock fsA f).map (fun r => r.2) =
      (SynoMetaConverter.convert_nfo cp clock fsB f).map (fun r => r.2)) ∧
    (∀ gA oA gB oB, SynoMetaConverter.convert_nfo cp clock fsA f = .ok (gA, oA) →
      SynoMetaConverter.convert_nfo cp clock fsB f = .ok (gB, oB) →
      ∀ p, p ≠ cp → gA p = gB p) := by
  have hff : fsA f = fsB f := hag f hf
  have hvv : fsA (vsmetaPathOf f) = fsB (vsmetaPathOf f) := hag _ hv
  have hcc : SynoMetaConverter.check_cache fsA f (vsmetaPathOf f) =
      SynoMetaConverter.check_cache fsB f (vsmetaPathOf f) := by
    simp only [SynoMetaConverter.check_cache, hff, hvv]
  have key : ∀ (F : SimFS), F f = fsB f →
      SynoMetaConverter.check_cache F f (vsmetaPathOf f) =
        SynoMetaConverter.check_cache fsB f (vsmetaPathOf f) →
      (∀ p, p ≠ cp → F p = fsB p) →
      ((SynoMetaConverter.convert_nfo cp clock F f).map (fun r => r.2) =
        (SynoMetaConverter.convert_nfo cp clock fsB f).map (fun r => r.2)) ∧
      (∀ gA oA gB oB, SynoMetaConverter.convert_nfo cp clock F f = .ok (gA, oA) →
        SynoMetaConverter.convert_nfo cp clock fsB f = .ok (gB, oB) →
        ∀ p, p ≠ cp → gA p = gB p) := by
    intro F hFf hFcc hFag
    cases hc : SynoMetaConverter.check_cache fsB f (vsmetaPathOf f) with
    | error e =>
      constructor
      · simp only [SynoMetaConverter.convert_nfo, hFcc, hc]
      · intro gA oA gB oB hA hB p hp
        simp only [SynoMetaConverter.convert_nfo, hFcc, hc] at hA
        exact Except.noConfusion hA
    | ok b =>
      cases b with
      | true =>
        constructor
        · simp only [SynoMetaConverter.convert_nfo, hFcc, hc, Except.map]
        · intro gA oA gB oB hA hB p hp
          simp only [SynoMetaConverter.convert_nfo, hFcc, hc, Except.ok.injEq,
            Prod.mk.injEq] at hA hB
          rw [← hA.1, ← hB.1]
          exact hFag p hp
      | false =>
        cases hfb : fsB f with
        | none =>
          constructor
          · simp only [SynoMetaConverter.convert_nfo, hFcc, hc, hFf, hfb, Except.map]
          · intro gA oA gB oB hA hB p hp
            simp only [SynoMetaConverter.convert_nfo, hFcc, hc, hFf, hfb, Except.ok.injEq,
              Prod.mk.injEq] at hA hB
            rw [← hA.1, ← hB.1]
            exact hFag p hp
        | some pr =>
          obtain ⟨mt, v⟩ := pr
          cases v with
          | vbin bs =>
            constructor
            · simp only [SynoMetaConverter.convert_nfo, hFcc, hc, hFf, hfb, Except.map]
            · intro gA oA gB oB hA hB p hp
              simp only [SynoMetaConverter.convert_nfo, hFcc, hc, hFf, hfb,
                Except.ok.injEq, Prod.mk.injEq] at hA hB
              rw [← hA.1, ← hB.1]
              exact hFag p hp
          | vtext ls =>
            constructor
            · simp only [SynoMetaConverter.convert_nfo, hFcc, hc, hFf, hfb, Except.map]
            · intro gA oA gB oB hA hB p hp
              simp only [SynoMetaConverter.convert_nfo, hFcc, hc, hFf, hfb,
                Except.ok.injEq, Prod.mk.injEq] at hA hB
              rw [← hA.1, ← hB.1]
              exact hFag p hp
          | vnfo d =>
            cases hp2 : SynoMetaConverter.parse_nfo d with
            | error e =>
              constructor
              · simp only [SynoMetaConverter.convert_nfo, hFcc, hc, hFf, hfb, hp2, Except.map]
              · intro gA oA gB oB hA hB p hp
                simp only [SynoMetaConverter.convert_nfo, hFcc, hc, hFf, hfb, hp2,
                  Except.ok.injEq, Prod.mk.injEq] at hA hB
                rw [← hA.1, ← hB.1]
                exact hFag p hp
            | ok m =>
              cases hg : SynoMetaConverter.generate_vsmeta m with
              | error e =>
                constructor
                · simp only [SynoMetaConverter.convert_nfo, hFcc, hc, hFf, hfb, hp2, hg, Except.map]
                · intro gA oA gB oB hA hB p hp
                  simp only [SynoMetaConverter.convert_nfo, hFcc, hc, hFf, hfb, hp2, hg,
                    Except.ok.injEq, Prod.mk.injEq] at hA hB
                  rw [← hA.1, ← hB.1]
                  exact hFag p hp
              | ok bs =>
                constructor
                · simp only [SynoMetaConverter.convert_nfo, hFcc, hc, hFf, hfb, hp2, hg, Except.map]
                · intro gA oA gB oB hA hB p hp
                  simp only [SynoMetaConverter.convert_nfo, hFcc, hc, hFf, hfb, hp2, hg,
                    Except.ok.injEq, Prod.mk.injEq] at hA hB
                  rw [← hA.1, ← hB.1]
                  simp only [SynoMetaConverter.update_cache]
                  rw [upd_ne _ _ _ _ hp, upd_ne _ _ _ _ hp]
                  by_cases hpv : p = vsmetaPathOf f
                  · subst hpv
                    rw [upd_self, upd_self]
                  · rw [upd_ne _ _ _ _ hpv, upd_ne _ _ _ _ hpv]
                    exact hFag p hp
  exact key fsA hff hcc hag

theorem runAll_agree (cp : String) : ∀ (nfos : List String) (clock : Nat) (fsA fsB : SimFS),
    (∀ p, p ≠ cp → fsA p = fsB p) →
    (∀ f ∈ nfos, f ≠ cp ∧ vsmetaPathOf f ≠ cp) →
    ((SynoMetaConverter.runAll cp clock fsA nfos).map (fun r => r.2) =
      (SynoMetaConverter.runAll cp clock fsB nfos).map (fun r => r.2)) ∧
    (∀ gA osA gB osB, SynoMetaConverter.runAll cp clock fsA nfos = .ok (gA, osA) →
      SynoMetaConverter.runAll cp clock fsB nfos = .ok (gB, osB) →
      ∀ p, p ≠ cp → gA p = gB p) := by
  intro nfos
  induction nfos with
  | nil =>
    intro clock fsA fsB hag _
    constructor
    · rfl
    · intro gA osA gB osB hA hB p hp
      simp only [SynoMetaConverter.runAll, Except.ok.injEq, Prod.mk.injEq] at hA hB
      rw [← hA.1, ← hB.1]
      exact hag p hp
  | cons g l ih =>
    intro clock fsA fsB hag hok
    have hgg := hok g (List.mem_cons_self _ _)
    have hca := convert_nfo_agree cp clock fsA fsB g hag hgg.1 hgg.2
    cases hA : SynoMetaConverter.convert_nfo cp clock fsA g with
    | error e =>
      have hmap := hca.1
      rw [hA] at hmap
      cases hB : SynoMetaConverter.convert_nfo cp clock fsB g with
      | error e2 =>
        rw [hB] at hmap
        simp only [Except.map, Except.error.injEq] at hmap
        subst hmap
        constructor
        · simp only [SynoMetaConverter.runAll, hA, hB]
        · intro gA osA gB osB hrA hrB p hp
          simp only [SynoMetaConverter.runAll, hA] at hrA
          exact Except.noConfusion hrA
      | ok rB =>
        rw [hB] at hmap
        simp only [Except.map] at hmap
        exact Except.noConfusion hmap
    | ok rA =>
      obtain ⟨fs1A, oA⟩ := rA
      have hmap := hca.1
      rw [hA] at hmap
      cases hB : SynoMetaConverter.convert_nfo cp clock fsB g with
      | error e2 =>
        rw [hB] at hmap
        simp only [Except.map] at hmap
        exact Except.noConfusion hmap
      | ok rB =>
        obtain ⟨fs1B, oB⟩ := rB
        rw [hB] at hmap
        simp only [Except.map, Except.ok.injEq] at hmap
        have hout : oA = oB := hmap
        have hst : ∀ p, p ≠ cp → fs1A p = fs1B p := hca.2 fs1A oA fs1B oB hA hB
        have ihh := ih (clock + 1) fs1A fs1B hst
          (fun f hf => hok f (List.mem_cons_of_mem _ hf))
        cases htA : SynoMetaConverter.runAll cp (clock + 1) fs1A l with
        | error e =>
          have hm2 := ihh.1
          rw [htA] at hm2
          cases htB : SynoMetaConverter.runAll cp (clock + 1) fs1B l with
          | error e2 =>
            rw [htB] at hm2
            simp only [Except.map, Except.error.injEq] at hm2
            subst hm2
            constructor
            · simp only [SynoMetaConverter.runAll, hA, hB, htA, htB]
            · intro gA osA gB osB hrA hrB p hp
              simp only [SynoMetaConverter.runAll, hA, htA] at hrA
              exact Except.noConfusion hrA
          | ok rB2 =>
            rw [htB] at hm2
            simp only [Except.map] at hm2
            exact Except.noConfusion hm2
        | ok rA2 =>
          obtain ⟨g2A, os2A⟩ := rA2
          have hm2 := ihh.1
          rw [htA] at hm2
          cases htB : SynoMetaConverter.runAll cp (clock + 1) fs1B l with
          | error e2 =>
            rw [htB] at hm2
            simp only [Except.map] at hm2
            exact Except.noConfusion hm2
          | ok rB2 =>
            obtain ⟨g2B, os2B⟩ := rB2
            rw [htB] at hm2
            simp only [Except.map, Except.ok.injEq] at hm2
            constructor
            · simp only [SynoMetaConverter.runAll, hA, hB, htA, htB, Except.map,
                Except.ok.injEq, List.cons.injEq]
              exact ⟨hout, hm2⟩
            · intro gA osA gB osB hrA hrB p hp
              simp only [SynoMetaConverter.runAll, hA, htA, Except.ok.injEq,
                Prod.mk.injEq] at hrA
              simp only [SynoMetaConverter.runAll, hB, htB, Except.ok.injEq,
                Prod.mk.injEq] at hrB
              rw [← hrA.1, ← hrB.1]
              exact ihh.2 g2A os2A g2B os2B htA htB p hp

/-- C10: the cache file is write-only. `_update_cache` appends one line to the
cache path and touches nothing else, and two runs whose trees agree everywhere
except on the cache path produce identical outcome sequences (in particular
identical skip decisions) and leave trees that again agree off the cache
path. -/
theorem C10_cache_noninterference (cp : String) (clock : Nat) (fsA fsB : SimFS)
    (nfos : List String)
    (hag : ∀ p, p ≠ cp → fsA p = fsB p)
    (hok : ∀ f ∈ nfos, f ≠ cp ∧ vsmetaPathOf f ≠ cp) :
    ((SynoMetaConverter.runAll cp clock fsA nfos).map (fun r => r.2) =
      (SynoMetaConverter.runAll cp clock fsB nfos).map (fun r => r.2)) ∧
    (∀ fs nfo p, p ≠ cp → SynoMetaConverter.update_cache cp clock fs nfo p = fs p) ∧
    (∀ fs nfo, SynoMetaConverter.update_cache cp clock fs nfo cp =
      some (clock, VFile.vtext (cacheLines fs cp ++ [nfo]))) := by
  refine ⟨(runAll_agree cp nfos clock fsA fsB hag hok).1, ?_, ?_⟩
  · intro fs nfo p hp
    exact upd_ne fs cp p _ hp
  · intro fs nfo
    exact upd_self fs cp _

/-- C10 witness: with cache path `c`, a tree without a cache file and the same
tree carrying a stale cache line yield identical outcome sequences on
`a.nfo`. -/
theorem C10_cache_noninterference_witness :
    ((SynoMetaConverter.runAll ("c") 0 exFs10a [("a.nfo")]).map (fun r => r.2) =
      (SynoMetaConverter.runAll ("c") 0 exFs10b [("a.nfo")]).map (fun r => r.2)) ∧
    (∀ fs nfo p, p ≠ ("c") → SynoMetaConverter.update_cache ("c") 0 fs nfo p = fs p) ∧
    (∀ fs nfo, SynoMetaConverter.update_cache ("c") 0 fs nfo ("c") =
      some (0, VFile.vtext (cacheLines fs ("c") ++ [nfo]))) := by
  apply C10_cache_noninterference ("c") 0 exFs10a exFs10b [("a.nfo")]
  · intro p hp
    exact (upd_ne exFs10a ("c") p _ hp).symm
  · intro f hf
    rw [List.mem_singleton] at hf
    subst hf
    exact ⟨by decide, by decide⟩
